import Mathlib

/-! gmfam: pager arithmetic, health handler and process lifecycle.

A shallow embedding of `pkg/pager/pager.go`, `pkg/handlers/health.go` and
`cmd/web/main.go`, followed by the properties established about them.

Go's `int` is the 64-bit two's-complement integer: values are `Int` and the
arithmetic that can leave the range is wrapped with `wrap64`.  `float64` is
IEEE 754 binary64 with round-to-nearest, ties-to-even: a finite value is a sign,
a mantissa and a binary exponent, and every operation rounds exactly as the
hardware does.
-/

namespace Gmfam

/-! ## Machine integers -/

/-- Smallest value of Go's 64-bit `int`. -/
def minInt64 : Int := -(2 ^ 63)

/-- Largest value of Go's 64-bit `int`. -/
def maxInt64 : Int := 2 ^ 63 - 1

/-- Two's-complement wrap-around of a mathematical integer into 64 bits. -/
def wrap64 (x : Int) : Int := (x + 2 ^ 63) % 2 ^ 64 - 2 ^ 63

/-! ## binary64 floating point -/

/-- A `float64` value.  `fin neg man exp` is `(-1)^neg * man * 2^exp`; a zero has
`man = 0`.  The exponent range is not bounded: every value computed from 64-bit
integers by the pager has magnitude between `2^-64` and `2^64`, far inside the
normal range of binary64. -/
inductive F64 where
  | fin (neg : Bool) (man : Nat) (exp : Int)
  | inf (neg : Bool)
  | nan
  deriving DecidableEq, Repr

/-- Round the non-negative fraction `n / d` to the nearest natural number, ties to
even. -/
def roundHalfEven (n d : Nat) : Nat :=
  let q := n / d
  let r := n % d
  if 2 * r < d then q
  else if d < 2 * r then q + 1
  else if q % 2 = 0 then q
  else q + 1

/-- Numerator and denominator of `(n / d) * 2 ^ (-k)`. -/
def shiftRatio (n d : Nat) (k : Int) : Nat × Nat :=
  (n * 2 ^ (-k).toNat, d * 2 ^ k.toNat)

/-- Binary logarithm by repeated halving, at most `fuel` times. -/
def log2Fuel : Nat → Nat → Nat
  | 0, _ => 0
  | fuel + 1, n => if n < 2 then 0 else log2Fuel fuel (n / 2) + 1

/-- Position of the leading bit: `2 ^ ilog2 n ≤ n < 2 ^ (ilog2 n + 1)` for
positive `n`. -/
def ilog2 (n : Nat) : Nat := log2Fuel n n

/-- The binade of the positive fraction `n / d`: the `e` with
`2 ^ e ≤ n / d < 2 ^ (e + 1)`. -/
def binade (n d : Nat) : Int :=
  let e0 : Int := (ilog2 n : Int) - (ilog2 d : Int)
  let s := shiftRatio n d e0
  if s.2 ≤ s.1 then e0 else e0 - 1

/-- Round the positive fraction `n / d` to 53 significant bits, nearest-even:
the result is `(man, exp)` standing for `man * 2 ^ exp`. -/
def roundRatio (n d : Nat) : Nat × Int :=
  let e := binade n d
  let s := shiftRatio n d (e - 52)
  (roundHalfEven s.1 s.2, e - 52)

/-- Conversion `float64(n)` of an integer. -/
def F64.ofInt (n : Int) : F64 :=
  if n = 0 then .fin false 0 0
  else
    let r := roundRatio n.natAbs 1
    .fin (decide (n < 0)) r.1 r.2

/-- Division `x / y` of two `float64` values. -/
def F64.div : F64 → F64 → F64
  | .nan, _ => .nan
  | _, .nan => .nan
  | .inf _, .inf _ => .nan
  | .inf s, .fin t _ _ => .inf (xor s t)
  | .fin s _ _, .inf t => .fin (xor s t) 0 0
  | .fin s m e, .fin t m' e' =>
    if m' = 0 then
      if m = 0 then .nan else .inf (xor s t)
    else if m = 0 then .fin (xor s t) 0 0
    else
      let q := shiftRatio m m' (e' - e)
      let r := roundRatio q.1 q.2
      .fin (xor s t) r.1 r.2

/-- Function `math.Ceil`: the least integral value not below the argument. -/
def F64.ceil : F64 → F64
  | .nan => .nan
  | .inf s => .inf s
  | .fin s m e =>
    if 0 ≤ e then .fin s m e
    else
      let d := 2 ^ (-e).toNat
      if s then .fin true (m / d) 0 else .fin false ((m + d - 1) / d) 0

/-- Conversion `int(f)`: truncation toward zero.  Go leaves the result
implementation-dependent when the value does not fit; the gc compiler on amd64
yields the smallest integer (the "integer indefinite" of `CVTTSD2SQ`), which is
what is modelled here. -/
def F64.toInt : F64 → Int
  | .nan => minInt64
  | .inf _ => minInt64
  | .fin s m e =>
    let mag : Nat := if 0 ≤ e then m * 2 ^ e.toNat else m / 2 ^ (-e).toNat
    let v : Int := if s then -(mag : Int) else (mag : Int)
    if minInt64 ≤ v ∧ v ≤ maxInt64 then v else minInt64

/-! ## Errors -/

/-- A non-nil Go `error`.  `serverClosed` is the sentinel `http.ErrServerClosed`,
`wrap` an error that wraps another one (the chain `errors.Is` walks). -/
inductive Err where
  | serverClosed
  | other (msg : String)
  | wrap (msg : String) (inner : Err)
  deriving DecidableEq, Repr

/-- A value of Go's `error` interface; `none` is `nil`. -/
abbrev GoError := Option Err

/-- Whether the chain of a non-nil error contains the target. -/
def Err.is : Err → Err → Bool
  | .wrap msg inner, target => (Err.wrap msg inner == target) || inner.is target
  | e, target => e == target

/-- Method `Error()`: the message of an error. -/
def Err.message : Err → String
  | .serverClosed => "http: Server closed"
  | .other msg => msg
  | .wrap msg inner => msg ++ ": " ++ inner.message

/-- Function `errors.Is(err, target)` for a non-nil target. -/
def errorsIs (err : GoError) (target : Err) : Bool :=
  match err with
  | none => false
  | some e => e.is target

/-! ## `pkg/pager` -/

/-- Value of a non-empty string of ASCII decimal digits, `none` for any other
input. -/
def digitsValue : List Char → Option Nat
  | [] => none
  | cs => cs.foldl
      (fun acc c => match acc with
        | none => none
        | some n => if c.isDigit then some (n * 10 + (c.toNat - 48)) else none)
      (some 0)

/-- The signed value of a digit string, when it fits a 64-bit `int`. -/
def parseSigned (neg : Bool) (cs : List Char) : Option Int :=
  match digitsValue cs with
  | none => none
  | some n =>
    let v : Int := if neg then -(n : Int) else (n : Int)
    if minInt64 ≤ v ∧ v ≤ maxInt64 then some v else none

/-- Go's `strconv.Atoi` restricted to what the caller observes: the parsed value
when the error is nil, `none` for a non-nil error.  The input is an optional sign
followed by one or more decimal digits, and the value has to fit a 64-bit `int`. -/
def Atoi (s : String) : Option Int :=
  match s.data with
  | '-' :: cs => parseSigned true cs
  | '+' :: cs => parseSigned false cs
  | cs => parseSigned false cs

/-- A request context of the web framework (`echo.Context`): the request it
carries and what the response writer answers to a write. -/
structure Context where
  method : String
  path : String
  query : List (String × String)
  body : String
  writeErr : GoError

/-- Method `ctx.QueryParam(name)`: the first value of the key, `""` when absent. -/
def Context.QueryParam (ctx : Context) (name : String) : String :=
  match ctx.query.find? (fun kv => kv.1 == name) with
  | some kv => kv.2
  | none => ""

/-- The query key used to indicate the current page. -/
def QueryKey : String := "page"

/-- A pager: total items, current page, items per page, total pages. -/
structure Pager where
  Items : Int
  Page : Int
  ItemsPerPage : Int
  Pages : Int
  deriving DecidableEq, Repr

/-- Function `NewPager(ctx, itemsPerPage)`. -/
def NewPager (ctx : Context) (itemsPerPage : Int) : Pager :=
  let p : Pager := { Items := 0, Page := 1, ItemsPerPage := itemsPerPage, Pages := 1 }
  let page := ctx.QueryParam QueryKey
  if page ≠ "" then
    match Atoi page with
    | some pageInt => if pageInt > 0 then { p with Page := pageInt } else p
    | none => p
  else p

/-- Method `(*Pager).SetItems(items)`. -/
def Pager.SetItems (p : Pager) (items : Int) : Pager :=
  let p1 : Pager := { p with Items := items }
  let p2 : Pager :=
    if items > 0 then
      { p1 with Pages :=
          F64.toInt (F64.ceil (F64.div (F64.ofInt items) (F64.ofInt p1.ItemsPerPage))) }
    else { p1 with Pages := 1 }
  if p2.Page > p2.Pages then { p2 with Page := p2.Pages } else p2

/-- Method `(*Pager).IsBeginning()`. -/
def Pager.IsBeginning (p : Pager) : Bool := p.Page == 1

/-- Method `(*Pager).IsEnd()`. -/
def Pager.IsEnd (p : Pager) : Bool := decide (p.Page ≥ p.Pages)

/-- Method `(*Pager).GetOffset()`: the returned offset and the pager afterwards. -/
def Pager.GetOffset (p : Pager) : Int × Pager :=
  let p1 : Pager := if p.Page = 0 then { p with Page := 1 } else p
  (wrap64 (wrap64 (p1.Page - 1) * p1.ItemsPerPage), p1)

/-! ## Specification vocabulary for the rounding -/

/-- The pair `(m, s)` is a nearest rounding of the positive rational `x` to 53
significant bits: `x` lies in the binade `[2 ^ (s + 52), 2 ^ (s + 53))` and the
mantissa `m` is within one half of the scaled value `x * 2 ^ (-s)`. -/
def IsRound (x : ℚ) (m : Nat) (s : Int) : Prop :=
  (2 : ℚ) ^ (s + 52) ≤ x ∧ x < (2 : ℚ) ^ (s + 53) ∧ |(m : ℚ) - x * (2 : ℚ) ^ (-s)| ≤ 1 / 2

/-- The page count `int(math.Ceil(float64(items) / float64(itemsPerPage)))`
computed by `SetItems` for a positive item count. -/
def pagesOf (items itemsPerPage : Int) : Int :=
  F64.toInt (F64.ceil (F64.div (F64.ofInt items) (F64.ofInt itemsPerPage)))

/-! ## `pkg/handlers/health.go` -/

/-- What a handler hands to the response writer: the status code and the JSON
object, as key/value pairs. -/
structure JSONResponse where
  status : Int
  payload : List (String × String)
  deriving DecidableEq, Repr

/-- Method `ctx.JSON(code, i)`: the response handed to the writer and the error of
the write. -/
def Context.JSON (ctx : Context) (code : Int) (i : List (String × String)) :
    JSONResponse × GoError :=
  ({ status := code, payload := i }, ctx.writeErr)

/-- The health handler (it has no fields). -/
structure Health where
  deriving DecidableEq, Repr

/-! ## Configuration and container -/

/-- Modelled from the spec: the TLS part of the Configuration Snapshot (§3);
package `config` is not among the sources, the fields are those `main` reads. -/
structure TLSSettings where
  Enabled : Bool
  Certificate : String
  Key : String
  deriving DecidableEq, Repr

/-- Modelled from the spec: the HTTP part of the Configuration Snapshot (§3);
durations are in nanoseconds. -/
structure HTTPConfig where
  Hostname : String
  Port : Nat
  ReadTimeout : Int
  WriteTimeout : Int
  IdleTimeout : Int
  TLS : TLSSettings
  deriving DecidableEq, Repr

/-- Modelled from the spec: the application part of the Configuration Snapshot. -/
structure AppConfig where
  Environment : String
  deriving DecidableEq, Repr

/-- Modelled from the spec: the Configuration Snapshot (§3). -/
structure Config where
  App : AppConfig
  HTTP : HTTPConfig
  deriving DecidableEq, Repr

/-- Modelled from the spec: the Service Container as `main` sees it, its
configuration and the handle of the HTTP engine (`c.Web`); package `services` is
not among the sources. -/
structure Container where
  Config : Config
  Web : Nat
  deriving DecidableEq, Repr

/-- Method `(*Health).Init(c)`. -/
def Health.Init (_h : Health) (_c : Container) : GoError := none

/-- Method `(*Health).Check(ctx)`: the response written and the returned error. -/
def Health.Check (_h : Health) (ctx : Context) : JSONResponse × GoError :=
  ctx.JSON 200 [("status", "ok")]

/-! ## Process model for `cmd/web/main.go` -/

/-- A loaded certificate/key pair (`tls.Certificate`). -/
structure Certificate where
  name : String
  deriving DecidableEq, Repr

/-- The part of `tls.Config` that `main` fills in. -/
structure TLSConfig where
  Certificates : List Certificate
  deriving DecidableEq, Repr

/-- The `http.Server` value built by the listener task. -/
structure Server where
  Addr : String
  Handler : Nat
  ReadTimeout : Int
  WriteTimeout : Int
  IdleTimeout : Int
  TLSConfig : Option TLSConfig
  deriving DecidableEq, Repr

/-- The signals `main` subscribes to. -/
inductive Signal where
  | interrupt
  | kill
  deriving DecidableEq, Repr

/-- A value attached to a log record. -/
inductive Val where
  | str (s : String)
  | nat (n : Nat)
  | bool (b : Bool)
  | err (e : Err)
  | any (v : String)
  deriving DecidableEq, Repr

/-- The observable actions of the process: output, log records and calls into
collaborators.  `serverShutdown` is the stop of the listener with a drain deadline
(`c.Web.Shutdown(ctx)`); it is part of the alphabet because the specification
speaks of it. -/
inductive Event where
  | println (s : String)
  | logInfo (msg : String) (fields : List (String × Val))
  | logError (msg : String) (fields : List (String × Val))
  | newContainer
  | buildRouter
  | spawnListener
  | loadX509KeyPair (certFile keyFile : String)
  | startServer (srv : Server)
  | serverShutdown (deadline : Int)
  | containerShutdown
  | signalNotify (sig : Signal)
  | recvSignal (sig : Signal)
  deriving DecidableEq, Repr

/-- How a call into a collaborator ends: it returns a value, panics, or never
returns during the run. -/
inductive Ext (α : Type) where
  | returns (a : α)
  | panics (v : String)
  | blocks
  deriving DecidableEq, Repr

/-- How a thread of control ends: normal return, `os.Exit(code)`, a panic in
flight, or blocked for the rest of the run. -/
inductive Outcome (α : Type) where
  | ret (a : α)
  | exit (code : Int)
  | panic (v : String)
  | block
  deriving DecidableEq, Repr

/-- A sequential computation: the actions it performed, in order, and how it
ended. -/
structure Proc (α : Type) where
  trace : List Event
  out : Outcome α
  deriving DecidableEq, Repr

/-- A computation that returns at once. -/
def Proc.pure {α : Type} (a : α) : Proc α := { trace := [], out := .ret a }

/-- Sequencing: the continuation runs only after a normal return. -/
def Proc.bind {α β : Type} (p : Proc α) (k : α → Proc β) : Proc β :=
  match p.out with
  | .ret a => { trace := p.trace ++ (k a).trace, out := (k a).out }
  | .exit c => { trace := p.trace, out := .exit c }
  | .panic v => { trace := p.trace, out := .panic v }
  | .block => { trace := p.trace, out := .block }

instance : Monad Proc where
  pure := Proc.pure
  bind := Proc.bind

/-- Perform one observable action. -/
def emit (e : Event) : Proc Unit := { trace := [e], out := .ret () }

/-- Function `os.Exit(code)`. -/
def osExit {α : Type} (code : Int) : Proc α := { trace := [], out := .exit code }

/-- Block for the rest of the run. -/
def blockForever {α : Type} : Proc α := { trace := [], out := .block }

/-- A call into a collaborator: the call is observed, then it ends as the
environment says. -/
def call {α : Type} (e : Event) (r : Ext α) : Proc α :=
  match r with
  | .returns a => { trace := [e], out := .ret a }
  | .panics v => { trace := [e], out := .panic v }
  | .blocks => { trace := [e], out := .block }

/-- Go's `defer`: after the body returns or panics, the deferred function runs.  It
is given the panic in flight (what `recover()` would return) and answers with the
panic still in flight when it returns.  `os.Exit` and a blocked body run no
deferred function. -/
def deferring (d : Option String → Proc (Option String)) (body : Proc Unit) : Proc Unit :=
  let finish (inFlight : Option String) : Proc Unit :=
    let r := d inFlight
    { trace := body.trace ++ r.trace,
      out := match r.out with
        | .ret none => .ret ()
        | .ret (some v) => .panic v
        | .exit c => .exit c
        | .panic v => .panic v
        | .block => .block }
  match body.out with
  | .ret _ => finish none
  | .panic v => finish (some v)
  | .exit c => { trace := body.trace, out := .exit c }
  | .block => { trace := body.trace, out := .block }

/-- The exit status a thread gives the process when it is the one that ends it, as
the main thread would: `0` after a normal return, the code of `os.Exit`, `2` for
an uncaught panic, none while blocked. -/
def exitStatus (p : Proc Unit) : Option Int :=
  match p.out with
  | .ret _ => some 0
  | .exit c => some c
  | .panic _ => some 2
  | .block => none

/-- The environment of one run: what the collaborators answer. -/
structure World where
  getenv : String → String
  newContainer : Ext Container
  buildRouter : Ext GoError
  shutdown : Ext GoError
  signal : Option Signal
  loadX509KeyPair : String → String → Certificate × GoError
  startServer : Ext GoError

/-- Function `fatal(msg, err)`: log the error and terminate the application, if the
error is not nil. -/
def fatal (msg : String) (err : GoError) : Proc Unit :=
  match err with
  | none => pure ()
  | some e => do
    emit (.logError msg [("error", .err e)])
    osExit 1

/-- The function started by `go` in `main`: the listener task. -/
def listenerTask (w : World) (c : Container) : Proc Unit := do
  let srv : Server :=
    { Addr := c.Config.HTTP.Hostname ++ ":" ++ toString c.Config.HTTP.Port,
      Handler := c.Web,
      ReadTimeout := c.Config.HTTP.ReadTimeout,
      WriteTimeout := c.Config.HTTP.WriteTimeout,
      IdleTimeout := c.Config.HTTP.IdleTimeout,
      TLSConfig := none }
  let srv ←
    if c.Config.HTTP.TLS.Enabled then do
      emit (.loadX509KeyPair c.Config.HTTP.TLS.Certificate c.Config.HTTP.TLS.Key)
      let loaded := w.loadX509KeyPair c.Config.HTTP.TLS.Certificate c.Config.HTTP.TLS.Key
      fatal "cannot load TLS certificate" loaded.2
      pure { srv with TLSConfig := some { Certificates := [loaded.1] } }
    else pure srv
  emit (.logInfo "Server starting"
    [("address", .str srv.Addr), ("tls_enabled", .bool c.Config.HTTP.TLS.Enabled)])
  let err ← call (.startServer srv) w.startServer
  if errorsIs err .serverClosed then
    fatal "shutting down the server" err
  else pure ()

/-- The first deferred function of `main`: catch a panic, report it and exit. -/
def recoverPanic : Option String → Proc (Option String)
  | none => pure none
  | some r => do
    emit (.println ("PANIC OCCURRED: " ++ r ++ "\n"))
    emit (.logError "Application panic during startup" [("panic", .any r)])
    osExit 1

/-- The second deferred function of `main`: shut the container down. -/
def shutdownContainer (w : World) (inFlight : Option String) : Proc (Option String) := do
  let err ← call .containerShutdown w.shutdown
  fatal "shutdown failed" err
  pure inFlight

/-- Function `init` of package `main`. -/
def init : Proc Unit :=
  emit (.println "INIT FUNCTION RUNNING - IF YOU SEE THIS, INIT FUNCTIONS WORK")

/-- Function `main`, as a thread of control.  The statement `go func() {...}()` is
the action `spawnListener`; the function it starts is `listenerTask`, and
`runProcess` runs the two together. -/
def main (w : World) : Proc Unit := do
  emit (.println "SEAN ADDED MANUAL LOG")
  emit (.logInfo "Application starting"
    [("environment", .str (w.getenv "PAGODA_APP_ENVIRONMENT")),
     ("version", .str (w.getenv "APP_VERSION")),
     ("go_version", .str (w.getenv "GO_VERSION"))])
  deferring recoverPanic do
    emit (.println "ABOUT TO INITIALIZE SERVICES CONTAINER")
    emit (.logInfo "Initializing services container..." [])
    let c ← call .newContainer w.newContainer
    emit (.println "SERVICES CONTAINER INITIALIZED SUCCESSFULLY")
    emit (.logInfo "Services container initialized successfully" [])
    deferring (shutdownContainer w) do
      emit (.logInfo "Container initialized"
        [("app_environment", .str c.Config.App.Environment),
         ("http_hostname", .str c.Config.HTTP.Hostname),
         ("http_port", .nat c.Config.HTTP.Port),
         ("database_type", .str "postgres")])
      let err ← call .buildRouter w.buildRouter
      if err ≠ none then
        fatal "failed to build the router" err
      else pure ()
      emit .spawnListener
      emit (.signalNotify .interrupt)
      emit (.signalNotify .kill)
      match w.signal with
      | some s => emit (.recvSignal s)
      | none => blockForever

/-- The actions performed after the termination signal was received. -/
def afterSignal : List Event → List Event
  | [] => []
  | .recvSignal _ :: rest => rest
  | _ :: rest => afterSignal rest

/-- Whether an action is a stop of the listener. -/
def Event.isListenerStop : Event → Bool
  | .serverShutdown _ => true
  | _ => false

/-- Whether an action is a teardown call: a stop of the listener or the shutdown
of the container. -/
def Event.isTeardown : Event → Bool
  | .serverShutdown _ => true
  | .containerShutdown => true
  | _ => false

/-! ## The process: `main` and the listener task together -/

/-- The two threads of control of the process. -/
inductive Thread where
  | main
  | listener
  deriving DecidableEq, Repr

/-- A run of the whole process under a schedule: the actions of both threads in
the order they were performed, the exit status once the process has ended, and the
thread that ended it. -/
structure ProcessRun where
  trace : List Event
  status : Option Int
  endedBy : Option Thread
  deriving DecidableEq, Repr

/-- Interleaving of the main thread `m` and the listener task `l`.  The schedule
names the thread that takes the next step: a step performs the next action of the
thread or, when none is left, ends the thread the way its outcome says.  The
listener task cannot step before `main` has performed `go`, nor after it returned.
The process ends when `main` returns (status 0), when either thread calls
`os.Exit`, or when either thread panics without recovery (status 2); a blocked
thread takes no step.  `mrest` and `lrest` are the actions still to be performed,
`acc` the ones performed so far. -/
def runThreads (m l : Proc Unit) (sched : List Thread) (mrest lrest : List Event)
    (spawned ldone : Bool) (acc : List Event) : ProcessRun :=
  match sched with
  | [] => { trace := acc, status := none, endedBy := none }
  | .main :: sched' =>
    match mrest with
    | e :: mrest' =>
      runThreads m l sched' mrest' lrest (spawned || decide (e = .spawnListener)) ldone
        (acc ++ [e])
    | [] =>
      match m.out with
      | .ret _ => { trace := acc, status := some 0, endedBy := some .main }
      | .exit c => { trace := acc, status := some c, endedBy := some .main }
      | .panic _ => { trace := acc, status := some 2, endedBy := some .main }
      | .block => runThreads m l sched' [] lrest spawned ldone acc
  | .listener :: sched' =>
    if spawned = false ∨ ldone = true then
      runThreads m l sched' mrest lrest spawned ldone acc
    else
      match lrest with
      | e :: lrest' => runThreads m l sched' mrest lrest' spawned ldone (acc ++ [e])
      | [] =>
        match l.out with
        | .ret _ => runThreads m l sched' mrest [] spawned true acc
        | .exit c => { trace := acc, status := some c, endedBy := some .listener }
        | .panic _ => { trace := acc, status := some 2, endedBy := some .listener }
        | .block => runThreads m l sched' mrest [] spawned ldone acc

/-- The main thread of the process: `init`, then `main`. -/
def mainThread (w : World) : Proc Unit := Proc.bind init (fun _ => main w)

/-- The listener task of a run: the function `main` starts with `go`, for the
container that `main` constructed. -/
def listenerOf (w : World) : Proc Unit :=
  match w.newContainer with
  | .returns c => listenerTask w c
  | .panics _ => Proc.pure ()
  | .blocks => Proc.pure ()

/-- A run of the process `cmd/web` in the world `w` under a schedule. -/
def runProcess (w : World) (sched : List Thread) : ProcessRun :=
  runThreads (mainThread w) (listenerOf w) sched (mainThread w).trace (listenerOf w).trace
    false false []

/-! ## Service Container, from the specification -/

/-- Modelled from the spec: the subsystems owned by the Service Container (§2,
§4.1); package `services` is not among the sources. -/
inductive Subsystem where
  | logger
  | storage
  | taskRunner
  | httpEngine
  deriving DecidableEq, Repr

/-- Modelled from the spec: what a configuration makes of each subsystem, whether
its construction and its release fail, and whether the optional task runner is
enabled (§9). -/
structure ContainerConfig where
  taskRunnerEnabled : Bool
  constructErr : Subsystem → GoError
  releaseErr : Subsystem → GoError

/-- Modelled from the spec: the dependency order of construction (§4.1), logger
first, storage second, task runner third, HTTP engine last. -/
def constructionOrder (cfg : ContainerConfig) : List Subsystem :=
  [.logger, .storage] ++ (if cfg.taskRunnerEnabled then [.taskRunner] else []) ++ [.httpEngine]

/-- Modelled from the spec: a transition of a subsystem (§4.1 logs one per
transition). -/
inductive Transition where
  | constructed (s : Subsystem)
  | released (s : Subsystem)
  deriving DecidableEq, Repr

/-- Modelled from the spec: the constructed Service Container, the subsystems it
owns in order of acquisition (§3). -/
structure ServiceContainer where
  owned : List Subsystem
  deriving DecidableEq, Repr

/-- Modelled from the spec: best-effort teardown (§3, §4.1), every subsystem of the
list is released in turn, a failure is recorded and the rest is still released. -/
def releaseAll (cfg : ContainerConfig) : List Subsystem → List Transition × List Err
  | [] => ([], [])
  | s :: rest =>
    let r := releaseAll cfg rest
    match cfg.releaseErr s with
    | none => (.released s :: r.1, r.2)
    | some e => (.released s :: r.1, e :: r.2)

/-- Modelled from the spec: the single aggregated error of a teardown (§4.1), nil
when no release failed, otherwise the failures chained together. -/
def aggregate : List Err → GoError
  | [] => none
  | e :: es => some (es.foldl (fun acc x => Err.wrap x.message acc) e)

/-- Modelled from the spec: construction in dependency order (§4.1); `built` holds
the subsystems constructed so far, most recent first.  When a step fails the
subsystems built so far are released, most recent first, and the error is
returned. -/
def constructFrom (cfg : ContainerConfig) :
    List Subsystem → List Subsystem → List Transition × Except Err ServiceContainer
  | [], built => ([], .ok { owned := built.reverse })
  | s :: rest, built =>
    match cfg.constructErr s with
    | some e => ((releaseAll cfg built).1, .error e)
    | none =>
      let r := constructFrom cfg rest (s :: built)
      (.constructed s :: r.1, r.2)

/-- Modelled from the spec: `construct(config)` (§4.1), standing for
`services.NewContainer`. -/
def construct (cfg : ContainerConfig) : List Transition × Except Err ServiceContainer :=
  constructFrom cfg (constructionOrder cfg) []

/-- Modelled from the spec: `shutdown(Container)` (§4.1), standing for
`Container.Shutdown`: release in reverse order of construction and return the
aggregated error. -/
def ServiceContainer.shutdown (cfg : ContainerConfig) (c : ServiceContainer) :
    List Transition × GoError :=
  let r := releaseAll cfg c.owned.reverse
  (r.1, aggregate r.2)

/-- Modelled from the spec: a valid configuration (§8), one whose subsystems can
all be constructed and, untouched by any request, released. -/
def ContainerConfig.valid (cfg : ContainerConfig) : Prop :=
  ∀ s, cfg.constructErr s = none ∧ cfg.releaseErr s = none

/-! ## Reference traces and sample environments -/

/-- What `main` does from its start up to the receipt of the signal `s`, when the
container `c` is constructed and the router is built. -/
def startupTrace (w : World) (c : Container) (s : Signal) : List Event :=
  [.println "SEAN ADDED MANUAL LOG",
   .logInfo "Application starting"
     [("environment", .str (w.getenv "PAGODA_APP_ENVIRONMENT")),
      ("version", .str (w.getenv "APP_VERSION")),
      ("go_version", .str (w.getenv "GO_VERSION"))],
   .println "ABOUT TO INITIALIZE SERVICES CONTAINER",
   .logInfo "Initializing services container..." [],
   .newContainer,
   .println "SERVICES CONTAINER INITIALIZED SUCCESSFULLY",
   .logInfo "Services container initialized successfully" [],
   .logInfo "Container initialized"
     [("app_environment", .str c.Config.App.Environment),
      ("http_hostname", .str c.Config.HTTP.Hostname),
      ("http_port", .nat c.Config.HTTP.Port),
      ("database_type", .str "postgres")],
   .buildRouter,
   .spawnListener,
   .signalNotify .interrupt,
   .signalNotify .kill,
   .recvSignal s]

/-- What the deferred functions of `main` do after the container shutdown was
called, and how `main` ends, for each way the call can end. -/
def shutdownTail : Ext GoError → List Event × Outcome Unit
  | .returns none => ([], .ret ())
  | .returns (some e) => ([.logError "shutdown failed" [("error", .err e)]], .exit 1)
  | .panics v =>
    ([.println ("PANIC OCCURRED: " ++ v ++ "\n"),
      .logError "Application panic during startup" [("panic", .any v)]], .exit 1)
  | .blocks => ([], .block)

/-- The `http.Server` value the listener task builds for a container. -/
def serverFor (c : Container) (tls : Option TLSConfig) : Server :=
  { Addr := c.Config.HTTP.Hostname ++ ":" ++ toString c.Config.HTTP.Port,
    Handler := c.Web,
    ReadTimeout := c.Config.HTTP.ReadTimeout,
    WriteTimeout := c.Config.HTTP.WriteTimeout,
    IdleTimeout := c.Config.HTTP.IdleTimeout,
    TLSConfig := tls }

/-- A sample container: plain HTTP on `127.0.0.1:8080`. -/
def sampleContainer : Container :=
  { Config :=
      { App := { Environment := "local" },
        HTTP := { Hostname := "127.0.0.1", Port := 8080, ReadTimeout := 5000000000,
                  WriteTimeout := 10000000000, IdleTimeout := 120000000000,
                  TLS := { Enabled := false, Certificate := "", Key := "" } } },
    Web := 1 }

/-- A sample container with TLS enabled. -/
def sampleTLSContainer : Container :=
  { Config :=
      { App := { Environment := "local" },
        HTTP := { Hostname := "127.0.0.1", Port := 8443, ReadTimeout := 5000000000,
                  WriteTimeout := 10000000000, IdleTimeout := 120000000000,
                  TLS := { Enabled := true, Certificate := "cert.pem", Key := "key.pem" } } },
    Web := 1 }

/-- A sample run: startup succeeds, an interrupt arrives, the container shuts down
cleanly and the listener reports that the server was closed. -/
def sampleWorld : World :=
  { getenv := fun _ => "",
    newContainer := .returns sampleContainer,
    buildRouter := .returns none,
    shutdown := .returns none,
    signal := some .interrupt,
    loadX509KeyPair := fun certFile _ => ({ name := certFile }, none),
    startServer := .returns (some .serverClosed) }

/-- A sample run in which the listener fails to bind its address. -/
def bindFailureWorld : World :=
  { sampleWorld with startServer := .returns (some (.other "listen tcp: address already in use")) }

/-- A sample run in which the certificate cannot be read. -/
def badCertWorld : World :=
  { sampleWorld with
    loadX509KeyPair := fun _ _ => ({ name := "" }, some (.other "open cert.pem: no such file")) }

/-- A sample run in which the container shutdown reports an error. -/
def failedShutdownWorld : World :=
  { sampleWorld with shutdown := .returns (some (.other "close storage: timeout")) }

/-- A schedule in which `main` runs alone until it ends the process. -/
def mainOnlySchedule : List Thread := List.replicate 16 .main

/-- A schedule in which `main` performs all its actions, the container shutdown
included, and the listener task then runs to its end before `main` returns. -/
def listenerLastSchedule : List Thread :=
  List.replicate 15 .main ++ List.replicate 4 .listener ++ [.main]

/-- A sample run in which TLS is enabled and the certificate cannot be read. -/
def badCertTLSWorld : World :=
  { sampleWorld with
    newContainer := .returns sampleTLSContainer,
    loadX509KeyPair := fun _ _ => ({ name := "" }, some (.other "open cert.pem: no such file")) }

/-- A sample configuration of the Service Container: every subsystem is constructed
and released without error, the task runner is enabled. -/
def sampleContainerConfig : ContainerConfig :=
  { taskRunnerEnabled := true, constructErr := fun _ => none, releaseErr := fun _ => none }

/-! ## Rounding lemmas -/

theorem log2Fuel_spec (fuel : Nat) : ∀ n : Nat, n ≠ 0 → n ≤ fuel →
    2 ^ log2Fuel fuel n ≤ n ∧ n < 2 ^ (log2Fuel fuel n + 1) := by
  induction fuel with
  | zero => intro n h0 h; omega
  | succ f ih =>
    intro n h0 h
    unfold log2Fuel
    by_cases h2 : n < 2
    · simp only [h2, if_true]
      constructor <;> simp <;> omega
    · simp only [h2, if_false]
      have hh := ih (n / 2) (by omega) (by omega)
      obtain ⟨h3, h4⟩ := hh
      constructor
      · rw [pow_succ]; omega
      · rw [pow_succ]; omega

theorem ilog2_spec (n : Nat) (h : n ≠ 0) : 2 ^ ilog2 n ≤ n ∧ n < 2 ^ (ilog2 n + 1) :=
  log2Fuel_spec n n h le_rfl

theorem shiftRatio_snd_pos (n d : Nat) (k : Int) (hd : 0 < d) : 0 < (shiftRatio n d k).2 := by
  unfold shiftRatio
  positivity

theorem shiftRatio_fst_pos (n d : Nat) (k : Int) (hn : 0 < n) : 0 < (shiftRatio n d k).1 := by
  unfold shiftRatio
  positivity

theorem two_zpow_toNat (k : Int) :
    ((2 : ℚ) ^ (-k).toNat) / (2 : ℚ) ^ k.toNat = (2 : ℚ) ^ (-k) := by
  rcases le_total 0 k with h | h
  · have h1 : (-k).toNat = 0 := Int.toNat_eq_zero.mpr (by omega)
    have h2 : ((k.toNat : Int)) = k := Int.toNat_of_nonneg h
    rw [h1, pow_zero, zpow_neg, ← zpow_natCast, h2, one_div]
  · have h1 : k.toNat = 0 := Int.toNat_eq_zero.mpr h
    have h2 : (((-k).toNat : Int)) = -k := Int.toNat_of_nonneg (by omega)
    rw [h1, pow_zero, div_one, ← zpow_natCast, h2]

theorem shiftRatio_val (n d : Nat) (k : Int) (hd : 0 < d) :
    ((shiftRatio n d k).1 : ℚ) / ((shiftRatio n d k).2 : ℚ) = (n : ℚ) / d * (2 : ℚ) ^ (-k) := by
  unfold shiftRatio
  have hd0 : (d : ℚ) ≠ 0 := by positivity
  have : ((2 : ℚ) ^ k.toNat) ≠ 0 := by positivity
  rw [← two_zpow_toNat]
  push_cast
  field_simp


theorem binade_spec (n d : Nat) (hn : 0 < n) (hd : 0 < d) :
    (2 : ℚ) ^ binade n d ≤ (n : ℚ) / d ∧ (n : ℚ) / d < (2 : ℚ) ^ (binade n d + 1) := by
  obtain ⟨ha1, ha2⟩ := ilog2_spec n (by omega)
  obtain ⟨hb1, hb2⟩ := ilog2_spec d (by omega)
  have hA1 : ((2 : ℚ) ^ ilog2 n) ≤ n := by exact_mod_cast ha1
  have hA2 : (n : ℚ) < 2 * (2 : ℚ) ^ ilog2 n := by
    have : (n : ℚ) < (2 : ℚ) ^ (ilog2 n + 1) := by exact_mod_cast ha2
    rw [pow_succ] at this; linarith
  have hB1 : ((2 : ℚ) ^ ilog2 d) ≤ d := by exact_mod_cast hb1
  have hB2 : (d : ℚ) < 2 * (2 : ℚ) ^ ilog2 d := by
    have : (d : ℚ) < (2 : ℚ) ^ (ilog2 d + 1) := by exact_mod_cast hb2
    rw [pow_succ] at this; linarith
  have hApos : (0 : ℚ) < (2 : ℚ) ^ ilog2 n := by positivity
  have hBpos : (0 : ℚ) < (2 : ℚ) ^ ilog2 d := by positivity
  have hdq : (0 : ℚ) < d := by exact_mod_cast hd
  have hnq : (0 : ℚ) < n := by exact_mod_cast hn
  have he0 : (2 : ℚ) ^ ((ilog2 n : Int) - (ilog2 d : Int)) = (2 : ℚ) ^ ilog2 n / (2 : ℚ) ^ ilog2 d := by
    rw [zpow_sub₀ (by norm_num), zpow_natCast, zpow_natCast]
  have hs := shiftRatio_val n d ((ilog2 n : Int) - (ilog2 d : Int)) hd
  have hs2 := shiftRatio_snd_pos n d ((ilog2 n : Int) - (ilog2 d : Int)) hd
  have hs2q : (0 : ℚ) < ((shiftRatio n d ((ilog2 n : Int) - (ilog2 d : Int))).2 : ℚ) := by
    exact_mod_cast hs2
  rw [zpow_neg, he0] at hs
  unfold binade
  simp only
  split_ifs with hc
  · have hcq : ((shiftRatio n d ((ilog2 n : Int) - (ilog2 d : Int))).2 : ℚ)
        ≤ ((shiftRatio n d ((ilog2 n : Int) - (ilog2 d : Int))).1 : ℚ) := by exact_mod_cast hc
    have h1 : (1 : ℚ) ≤ (n : ℚ) / d * ((2 : ℚ) ^ ilog2 n / (2 : ℚ) ^ ilog2 d)⁻¹ := by
      rw [← hs, le_div_iff₀ hs2q]; linarith
    rw [inv_div, div_mul_div_comm, le_div_iff₀ (by positivity)] at h1
    constructor
    · rw [he0, div_le_div_iff₀ hBpos hdq]; linarith
    · rw [zpow_add₀ (by norm_num), he0, zpow_one, div_mul_eq_mul_div, div_lt_div_iff₀ hdq hBpos]
      nlinarith
  · have hcq : ((shiftRatio n d ((ilog2 n : Int) - (ilog2 d : Int))).1 : ℚ)
        < ((shiftRatio n d ((ilog2 n : Int) - (ilog2 d : Int))).2 : ℚ) := by
      push_neg at hc; exact_mod_cast hc
    have h1 : (n : ℚ) / d * ((2 : ℚ) ^ ilog2 n / (2 : ℚ) ^ ilog2 d)⁻¹ < 1 := by
      rw [← hs, div_lt_iff₀ hs2q]; linarith
    rw [inv_div, div_mul_div_comm, div_lt_iff₀ (by positivity)] at h1
    constructor
    · rw [zpow_sub₀ (by norm_num), he0, zpow_one, div_div, div_le_div_iff₀ (by positivity) hdq]
      nlinarith
    · rw [sub_add_cancel, he0, div_lt_div_iff₀ hdq hBpos]; linarith

theorem roundHalfEven_spec (n d : Nat) (hd : 0 < d) :
    |((roundHalfEven n d : Nat) : ℚ) - (n : ℚ) / d| ≤ 1 / 2 := by
  have hdq : (0 : ℚ) < d := by exact_mod_cast hd
  have hdm := Nat.div_add_mod n d
  have hml := Nat.mod_lt n hd
  have hnq : (n : ℚ) = d * (n / d : Nat) + (n % d : Nat) := by exact_mod_cast hdm.symm
  have hx : (n : ℚ) / d = (n / d : Nat) + ((n % d : Nat) : ℚ) / d := by
    rw [hnq]; field_simp; ring
  have hr0 : (0 : ℚ) ≤ ((n % d : Nat) : ℚ) / d := by positivity
  have hr1 : ((n % d : Nat) : ℚ) / d < 1 := by
    rw [div_lt_one hdq]; exact_mod_cast hml
  have key : ∀ c : Prop, (2 * (n % d) < d → ((n % d : Nat) : ℚ) / d ≤ 1 / 2) ∧
      (¬ 2 * (n % d) < d → 1 / 2 ≤ ((n % d : Nat) : ℚ) / d) ∧
      (¬ 2 * (n % d) < d → ¬ d < 2 * (n % d) → ((n % d : Nat) : ℚ) / d = 1 / 2) := by
    intro _
    refine ⟨?_, ?_, ?_⟩
    · intro h
      have : (2 : ℚ) * ((n % d : Nat) : ℚ) < d := by exact_mod_cast h
      rw [div_le_iff₀ hdq]; linarith
    · intro h
      have : (d : ℚ) ≤ 2 * ((n % d : Nat) : ℚ) := by push_neg at h; exact_mod_cast h
      rw [le_div_iff₀ hdq]; linarith
    · intro h h'
      have : d = 2 * (n % d) := by omega
      have : (d : ℚ) = 2 * ((n % d : Nat) : ℚ) := by exact_mod_cast this
      rw [div_eq_iff (ne_of_gt hdq)]; linarith
  obtain ⟨k1, k2, k3⟩ := key True
  unfold roundHalfEven
  simp only
  rw [hx, abs_le]
  split_ifs with h1 h2 h3
  · have := k1 h1
    constructor <;> linarith
  · have := k2 h1
    push_cast
    constructor <;> linarith
  · have := k3 h1 h2
    constructor <;> linarith
  · have := k3 h1 h2
    push_cast
    constructor <;> linarith

theorem roundRatio_spec (n d : Nat) (hn : 0 < n) (hd : 0 < d) :
    IsRound ((n : ℚ) / d) (roundRatio n d).1 (roundRatio n d).2 := by
  obtain ⟨h1, h2⟩ := binade_spec n d hn hd
  have hs := shiftRatio_val n d (binade n d - 52) hd
  have hr := roundHalfEven_spec (shiftRatio n d (binade n d - 52)).1
    (shiftRatio n d (binade n d - 52)).2 (shiftRatio_snd_pos n d _ hd)
  unfold roundRatio IsRound
  simp only
  refine ⟨?_, ?_, ?_⟩
  · rw [sub_add_cancel]; exact h1
  · have : binade n d - 52 + 53 = binade n d + 1 := by ring
    rw [this]; exact h2
  · rw [← hs]; exact hr

theorem IsRound.scaled_bounds {x : ℚ} {m : Nat} {s : Int} (h : IsRound x m s) :
    (2 : ℚ) ^ 52 ≤ x * (2 : ℚ) ^ (-s) ∧ x * (2 : ℚ) ^ (-s) < (2 : ℚ) ^ 53 := by
  obtain ⟨h1, h2, _⟩ := h
  have hp : (0 : ℚ) < (2 : ℚ) ^ (-s) := by positivity
  have e1 : (2 : ℚ) ^ (s + 52) * (2 : ℚ) ^ (-s) = (2 : ℚ) ^ 52 := by
    rw [← zpow_add₀ (by norm_num)]
    have : s + 52 + -s = (52 : ℕ) := by push_cast; ring
    rw [this, zpow_natCast]
  have e2 : (2 : ℚ) ^ (s + 53) * (2 : ℚ) ^ (-s) = (2 : ℚ) ^ 53 := by
    rw [← zpow_add₀ (by norm_num)]
    have : s + 53 + -s = (53 : ℕ) := by push_cast; ring
    rw [this, zpow_natCast]
  constructor
  · rw [← e1]; exact mul_le_mul_of_nonneg_right h1 hp.le
  · rw [← e2]; exact mul_lt_mul_of_pos_right h2 hp

theorem IsRound.man_ge {x : ℚ} {m : Nat} {s : Int} (h : IsRound x m s) : 2 ^ 52 ≤ m := by
  obtain ⟨hb1, _⟩ := h.scaled_bounds
  have h3 := (abs_le.mp h.2.2).1
  by_contra hc
  push_neg at hc
  have : m + 1 ≤ 2 ^ 52 := hc
  have : ((m : ℚ) + 1) ≤ (2 : ℚ) ^ 52 := by exact_mod_cast this
  linarith

theorem IsRound.man_le {x : ℚ} {m : Nat} {s : Int} (h : IsRound x m s) : m ≤ 2 ^ 53 := by
  obtain ⟨_, hb2⟩ := h.scaled_bounds
  have h3 := (abs_le.mp h.2.2).2
  by_contra hc
  push_neg at hc
  have : 2 ^ 53 + 1 ≤ m := hc
  have : (2 : ℚ) ^ 53 + 1 ≤ (m : ℚ) := by exact_mod_cast this
  linarith

theorem IsRound.man_pos {x : ℚ} {m : Nat} {s : Int} (h : IsRound x m s) : 0 < m :=
  lt_of_lt_of_le (by positivity) h.man_ge

/-- Scaling a mantissa back: `(y * 2 ^ (-s)) * 2 ^ s = y`. -/
theorem scale_back (y : ℚ) (s : Int) : y * (2 : ℚ) ^ (-s) * (2 : ℚ) ^ s = y := by
  rw [mul_assoc, ← zpow_add₀ (by norm_num), neg_add_cancel, zpow_zero, mul_one]

theorem IsRound.val_ge {x : ℚ} {m : Nat} {s : Int} (h : IsRound x m s) :
    (2 : ℚ) ^ (s + 52) ≤ (m : ℚ) * (2 : ℚ) ^ s := by
  have h1 : ((2 : ℚ) ^ 52) ≤ (m : ℚ) := by exact_mod_cast h.man_ge
  have hp : (0 : ℚ) < (2 : ℚ) ^ s := by positivity
  have : (2 : ℚ) ^ (s + 52) = (2 : ℚ) ^ 52 * (2 : ℚ) ^ s := by
    rw [zpow_add₀ (by norm_num), mul_comm]; norm_cast
  rw [this]
  exact mul_le_mul_of_nonneg_right h1 hp.le

theorem IsRound.val_le {x : ℚ} {m : Nat} {s : Int} (h : IsRound x m s) :
    (m : ℚ) * (2 : ℚ) ^ s ≤ (2 : ℚ) ^ (s + 53) := by
  have h1 : (m : ℚ) ≤ ((2 : ℚ) ^ 53) := by exact_mod_cast h.man_le
  have hp : (0 : ℚ) < (2 : ℚ) ^ s := by positivity
  have : (2 : ℚ) ^ (s + 53) = (2 : ℚ) ^ 53 * (2 : ℚ) ^ s := by
    rw [zpow_add₀ (by norm_num), mul_comm]; norm_cast
  rw [this]
  exact mul_le_mul_of_nonneg_right h1 hp.le

/-- A value whose scaled mantissa is already a natural number is not changed by
the rounding. -/
theorem IsRound.exact {x : ℚ} {m : Nat} {s : Int} (h : IsRound x m s) (k : Nat)
    (hk : x * (2 : ℚ) ^ (-s) = (k : ℚ)) : m = k := by
  have h3 := abs_le.mp h.2.2
  rw [hk] at h3
  have a1 : (k : ℚ) < (m : ℚ) + 1 := by linarith [h3.2]
  have a2 : (m : ℚ) < (k : ℚ) + 1 := by linarith [h3.1]
  have b1 : k < m + 1 := by exact_mod_cast a1
  have b2 : m < k + 1 := by exact_mod_cast a2
  omega

theorem IsRound.exact_val {x : ℚ} {m : Nat} {s : Int} (h : IsRound x m s) (k : Nat)
    (hk : x * (2 : ℚ) ^ (-s) = (k : ℚ)) : (m : ℚ) * (2 : ℚ) ^ s = x := by
  rw [h.exact k hk, ← hk, scale_back]

/-- The exponent of a rounding is determined by the binade of the value. -/
theorem IsRound.exp_eq {x : ℚ} {m : Nat} {s : Int} (h : IsRound x m s) (e : Int)
    (h1 : (2 : ℚ) ^ e ≤ x) (h2 : x < (2 : ℚ) ^ (e + 1)) : s = e - 52 := by
  have a : (2 : ℚ) ^ (s + 52) < (2 : ℚ) ^ (e + 1) := lt_of_le_of_lt h.1 h2
  have b : (2 : ℚ) ^ e < (2 : ℚ) ^ (s + 53) := lt_of_le_of_lt h1 h.2.1
  rw [zpow_lt_zpow_iff_right₀ (by norm_num)] at a b
  omega

theorem IsRound.le_pow {x : ℚ} {m : Nat} {s : Int} (h : IsRound x m s) (k : Int)
    (hx : x ≤ (2 : ℚ) ^ k) : (m : ℚ) * (2 : ℚ) ^ s ≤ (2 : ℚ) ^ k := by
  by_cases hk : s + 53 ≤ k
  · exact le_trans h.val_le (zpow_le_zpow_right₀ (by norm_num) hk)
  · have h1 : (2 : ℚ) ^ (s + 52) ≤ (2 : ℚ) ^ k := le_trans h.1 hx
    rw [zpow_le_zpow_iff_right₀ (by norm_num)] at h1
    have hks : k = s + 52 := by omega
    have hxe : x = (2 : ℚ) ^ (s + 52) := le_antisymm (hks ▸ hx) h.1
    have hy : x * (2 : ℚ) ^ (-s) = ((2 ^ 52 : Nat) : ℚ) := by
      rw [hxe, ← zpow_add₀ (by norm_num)]
      have : s + 52 + -s = (52 : ℕ) := by push_cast; ring
      rw [this, zpow_natCast]; norm_cast
    rw [h.exact_val _ hy]; exact hx

theorem IsRound.ge_pow {x : ℚ} {m : Nat} {s : Int} (h : IsRound x m s) (k : Int)
    (hx : (2 : ℚ) ^ k ≤ x) : (2 : ℚ) ^ k ≤ (m : ℚ) * (2 : ℚ) ^ s := by
  have h1 : (2 : ℚ) ^ k < (2 : ℚ) ^ (s + 53) := lt_of_le_of_lt hx h.2.1
  rw [zpow_lt_zpow_iff_right₀ (by norm_num)] at h1
  exact le_trans (zpow_le_zpow_right₀ (by norm_num) (by omega)) h.val_ge

/-- For a non-positive exponent, `2 ^ (-s)` is a natural power of two. -/
theorem zpow_neg_eq_natPow (s : Int) (hs : s ≤ 0) :
    (2 : ℚ) ^ (-s) = ((2 ^ (-s).toNat : Nat) : ℚ) := by
  have h2 : (((-s).toNat : Int)) = -s := Int.toNat_of_nonneg (by omega)
  push_cast
  rw [← zpow_natCast, h2]

theorem zpow_eq_natPow (s : Int) (hs : 0 ≤ s) :
    (2 : ℚ) ^ s = ((2 ^ s.toNat : Nat) : ℚ) := by
  have h2 : ((s.toNat : Int)) = s := Int.toNat_of_nonneg hs
  push_cast
  rw [← zpow_natCast, h2]

theorem two_zpow_53 : (2 : ℚ) ^ (53 : Int) = ((2 ^ 53 : Nat) : ℚ) := by norm_num

/-- Integers up to `2 ^ 53` are converted to `float64` without error. -/
theorem IsRound.exact_nat {a m : Nat} {s : Int} (h : IsRound (a : ℚ) m s)
    (ha : a ≤ 2 ^ 53) : (m : ℚ) * (2 : ℚ) ^ s = a := by
  rcases eq_or_lt_of_le h.1 with heq | hlt
  · have hy : (a : ℚ) * (2 : ℚ) ^ (-s) = ((2 ^ 52 : Nat) : ℚ) := by
      rw [← heq, ← zpow_add₀ (by norm_num)]
      have : s + 52 + -s = (52 : ℕ) := by push_cast; ring
      rw [this, zpow_natCast]; norm_cast
    exact h.exact_val _ hy
  · have haq : (a : ℚ) ≤ (2 : ℚ) ^ (53 : Int) := by
      rw [two_zpow_53]; exact_mod_cast ha
    have h1 : (2 : ℚ) ^ (s + 52) < (2 : ℚ) ^ (53 : Int) := lt_of_lt_of_le hlt haq
    rw [zpow_lt_zpow_iff_right₀ (by norm_num)] at h1
    have hs : s ≤ 0 := by omega
    have hy : (a : ℚ) * (2 : ℚ) ^ (-s) = ((a * 2 ^ (-s).toNat : Nat) : ℚ) := by
      rw [zpow_neg_eq_natPow s hs]; push_cast; ring
    exact h.exact_val _ hy

/-- Integers above `2 ^ 53` are converted to a `float64` that is itself an integer
of at least `2 ^ 53`. -/
theorem IsRound.big_nat {b m : Nat} {s : Int} (h : IsRound (b : ℚ) m s)
    (hb : 2 ^ 53 < b) : ∃ B : Nat, (m : ℚ) * (2 : ℚ) ^ s = B ∧ 2 ^ 53 ≤ B := by
  have hbq : (2 : ℚ) ^ (53 : Int) < (b : ℚ) := by
    rw [two_zpow_53]; exact_mod_cast hb
  have h1 : (2 : ℚ) ^ (53 : Int) < (2 : ℚ) ^ (s + 53) := lt_trans hbq h.2.1
  rw [zpow_lt_zpow_iff_right₀ (by norm_num)] at h1
  have hs : 0 ≤ s := by omega
  refine ⟨m * 2 ^ s.toNat, ?_, ?_⟩
  · rw [zpow_eq_natPow s hs]; push_cast; ring
  · have h2 := h.ge_pow 53 hbq.le
    rw [zpow_eq_natPow s hs, two_zpow_53] at h2
    exact_mod_cast h2

theorem two_zpow_52_scaled (s : Int) :
    (2 : ℚ) ^ (s + 52) * (2 : ℚ) ^ (-s) = ((2 ^ 52 : Nat) : ℚ) := by
  rw [← zpow_add₀ (by norm_num)]
  have : s + 52 + -s = (52 : ℕ) := by push_cast; ring
  rw [this, zpow_natCast]; norm_cast

/-- Rounding the quotient of two naturals does not change its ceiling, as long as
the numerator is at most `2 ^ 53`. -/
theorem IsRound.ceil_eq {a b m : Nat} {s : Int} (h : IsRound ((a : ℚ) / b) m s)
    (hb : 0 < b) (ha : a ≤ 2 ^ 53) :
    ⌈(m : ℚ) * (2 : ℚ) ^ s⌉ = ⌈(a : ℚ) / b⌉ := by
  rcases eq_or_lt_of_le h.1 with heq | hlt
  · have hy : (a : ℚ) / b * (2 : ℚ) ^ (-s) = ((2 ^ 52 : Nat) : ℚ) := by
      rw [← heq]; exact two_zpow_52_scaled s
    rw [h.exact_val _ hy]
  · have hbq : (0 : ℚ) < b := by exact_mod_cast hb
    have hb1 : (1 : ℚ) ≤ b := by exact_mod_cast hb
    have haq : (a : ℚ) ≤ (2 : ℚ) ^ (53 : Int) := by
      rw [two_zpow_53]; exact_mod_cast ha
    have hxa : (a : ℚ) / b ≤ a := div_le_self (by positivity) hb1
    have h1 : (2 : ℚ) ^ (s + 52) < (2 : ℚ) ^ (53 : Int) :=
      lt_of_lt_of_le hlt (le_trans hxa haq)
    rw [zpow_lt_zpow_iff_right₀ (by norm_num)] at h1
    have hs : s ≤ 0 := by omega
    have hp : (2 : ℚ) ^ (-s) = ((2 ^ (-s).toNat : Nat) : ℚ) := zpow_neg_eq_natPow s hs
    generalize hT : 2 ^ (-s).toNat = T at hp
    have hTpos : 0 < T := by rw [← hT]; positivity
    have hTq : (0 : ℚ) < (T : ℚ) := by exact_mod_cast hTpos
    have hps : (2 : ℚ) ^ s = 1 / (T : ℚ) := by
      rw [← hp, zpow_neg, one_div, inv_inv]
    -- the denominator is below one unit in the last place, doubled
    have hbt : (b : ℚ) < 2 * (T : ℚ) := by
      have e1 : (2 : ℚ) ^ (s + 52) = ((2 ^ 52 : Nat) : ℚ) / T := by
        rw [eq_div_iff (ne_of_gt hTq), ← hp]; exact two_zpow_52_scaled s
      rw [e1, div_lt_div_iff₀ hTq hbq] at hlt
      have ha' : (a : ℚ) ≤ ((2 ^ 53 : Nat) : ℚ) := by exact_mod_cast ha
      push_cast at hlt ha'
      by_contra hc
      push_neg at hc
      nlinarith
    have h3 := abs_le.mp h.2.2
    rw [hp] at h3
    have hk1 : (a : ℚ) / b ≤ (⌈(a : ℚ) / b⌉ : ℚ) := Int.le_ceil _
    have hk2 : (⌈(a : ℚ) / b⌉ : ℚ) - 1 < (a : ℚ) / b := by
      have := Int.ceil_lt_add_one ((a : ℚ) / b); linarith
    generalize ⌈(a : ℚ) / b⌉ = k at hk1 hk2
    rw [Int.ceil_eq_iff, hps]
    constructor
    · have i1 : ((k : ℚ) - 1) * b < a := by rwa [lt_div_iff₀ hbq] at hk2
      have i2 : (k - 1) * (b : Int) < (a : Int) := by exact_mod_cast i1
      have i3 : (k - 1) * (b : Int) + 1 ≤ (a : Int) := i2
      have i4 : ((k : ℚ) - 1) * b + 1 ≤ a := by exact_mod_cast i3
      have hx1 : ((k : ℚ) - 1) * T + T / b ≤ (a : ℚ) / b * T := by
        have : ((k : ℚ) - 1) * T + T / b = (((k : ℚ) - 1) * b + 1) * T / b := by
          field_simp; ring
        rw [this, div_mul_eq_mul_div]
        exact div_le_div_of_nonneg_right (mul_le_mul_of_nonneg_right i4 hTq.le) hbq.le
      have hx2 : (1 : ℚ) / 2 < T / b := by
        rw [div_lt_div_iff₀ (by norm_num) hbq]; linarith
      have hm : ((k : ℚ) - 1) * T < m := by linarith [h3.1]
      rw [mul_one_div, lt_div_iff₀ hTq]
      exact hm
    · have j1 : (a : ℚ) / b * T ≤ (k : ℚ) * T := mul_le_mul_of_nonneg_right hk1 hTq.le
      have j2 : (m : ℚ) < (k : ℚ) * T + 1 := by linarith [h3.2]
      have j3 : (m : Int) < k * (T : Int) + 1 := by exact_mod_cast j2
      have j4 : (m : Int) ≤ k * (T : Int) := by omega
      have j5 : (m : ℚ) ≤ (k : ℚ) * T := by exact_mod_cast j4
      rw [mul_one_div, div_le_iff₀ hTq]
      exact j5

/-! ## The `float64` operations against the rounding specification -/

theorem ofInt_pos (a : Int) (ha : 0 < a) :
    ∃ m s, F64.ofInt a = .fin false m s ∧ IsRound (a : ℚ) m s := by
  refine ⟨(roundRatio a.natAbs 1).1, (roundRatio a.natAbs 1).2, ?_, ?_⟩
  · unfold F64.ofInt
    have h0 : a ≠ 0 := by omega
    have h1 : ¬ a < 0 := by omega
    simp [h0, h1]
  · have hn : 0 < a.natAbs := Int.natAbs_pos.mpr (by omega)
    have h := roundRatio_spec a.natAbs 1 hn (by norm_num)
    have hc : ((a.natAbs : ℚ)) / ((1 : Nat) : ℚ) = (a : ℚ) := by
      rw [Nat.cast_one, div_one, Nat.cast_natAbs, abs_of_pos ha]
    rwa [hc] at h

theorem div_fin_pos (m m' : Nat) (e e' : Int) (hm : 0 < m) (hm' : 0 < m') :
    ∃ r s, F64.div (.fin false m e) (.fin false m' e') = .fin false r s ∧
      IsRound (((m : ℚ) * (2 : ℚ) ^ e) / ((m' : ℚ) * (2 : ℚ) ^ e')) r s := by
  refine ⟨(roundRatio (shiftRatio m m' (e' - e)).1 (shiftRatio m m' (e' - e)).2).1,
    (roundRatio (shiftRatio m m' (e' - e)).1 (shiftRatio m m' (e' - e)).2).2, ?_, ?_⟩
  · unfold F64.div
    have h0 : m ≠ 0 := by omega
    have h1 : m' ≠ 0 := by omega
    simp [h0, h1]
  · have h := roundRatio_spec (shiftRatio m m' (e' - e)).1 (shiftRatio m m' (e' - e)).2
      (shiftRatio_fst_pos m m' _ hm) (shiftRatio_snd_pos m m' _ hm')
    have hv := shiftRatio_val m m' (e' - e) hm'
    have hc : (m : ℚ) / m' * (2 : ℚ) ^ (-(e' - e)) =
        ((m : ℚ) * (2 : ℚ) ^ e) / ((m' : ℚ) * (2 : ℚ) ^ e') := by
      have hm'q : (m' : ℚ) ≠ 0 := by positivity
      have h2 : ((2 : ℚ) ^ e') ≠ 0 := by positivity
      rw [neg_sub, zpow_sub₀ (by norm_num)]
      field_simp
    rw [hv, hc] at h
    exact h

theorem natCeil_div (m d : Nat) (hd : 0 < d) :
    ⌈(m : ℚ) / (d : ℚ)⌉ = (((m + d - 1) / d : Nat) : Int) := by
  have hdq : (0 : ℚ) < d := by exact_mod_cast hd
  rw [Int.ceil_eq_iff]
  have h1 : (m + d - 1) / d * d ≤ m + d - 1 := Nat.div_mul_le_self _ _
  have h2 : m + d - 1 < ((m + d - 1) / d + 1) * d := by
    have := Nat.lt_div_mul_add (a := m + d - 1) hd
    rw [add_mul, one_mul]; exact this
  generalize (m + d - 1) / d = k at h1 h2
  have h1' : k * d < m + d := by omega
  have h2' : m ≤ k * d := by
    have : m + d - 1 < k * d + d := by rw [add_mul, one_mul] at h2; exact h2
    omega
  constructor
  · rw [lt_div_iff₀ hdq]
    have : ((k * d : Nat) : ℚ) < ((m + d : Nat) : ℚ) := by exact_mod_cast h1'
    push_cast at this ⊢
    linarith
  · rw [div_le_iff₀ hdq]
    have : ((m : Nat) : ℚ) ≤ ((k * d : Nat) : ℚ) := by exact_mod_cast h2'
    push_cast at this ⊢
    linarith

theorem minInt64_le_natCast (n : Nat) : minInt64 ≤ (n : Int) := by
  unfold minInt64
  have : (0 : Int) ≤ (n : Int) := Int.natCast_nonneg n
  have : -(2 : Int) ^ 63 ≤ 0 := by norm_num
  omega

theorem toInt_ceil_fin (m : Nat) (e : Int) :
    F64.toInt (F64.ceil (.fin false m e)) =
      if ⌈(m : ℚ) * (2 : ℚ) ^ e⌉ ≤ maxInt64 then ⌈(m : ℚ) * (2 : ℚ) ^ e⌉ else minInt64 := by
  by_cases he : 0 ≤ e
  · have hv : (m : ℚ) * (2 : ℚ) ^ e = ((m * 2 ^ e.toNat : Nat) : ℚ) := by
      rw [zpow_eq_natPow e he]; push_cast; ring
    have hc : ⌈(m : ℚ) * (2 : ℚ) ^ e⌉ = ((m * 2 ^ e.toNat : Nat) : Int) := by
      rw [hv]; exact Int.ceil_natCast _
    rw [hc]
    unfold F64.ceil F64.toInt
    simp only [he, if_true, Bool.false_eq_true, if_false]
    simp only [minInt64_le_natCast, true_and]
  · push_neg at he
    have hd : 0 < 2 ^ (-e).toNat := by positivity
    have hv : (m : ℚ) * (2 : ℚ) ^ e = (m : ℚ) / ((2 ^ (-e).toNat : Nat) : ℚ) := by
      rw [← zpow_neg_eq_natPow e he.le, zpow_neg, div_eq_mul_inv, inv_inv]
    have hc : ⌈(m : ℚ) * (2 : ℚ) ^ e⌉ =
        (((m + 2 ^ (-e).toNat - 1) / 2 ^ (-e).toNat : Nat) : Int) := by
      rw [hv]; exact natCeil_div m _ hd
    rw [hc]
    unfold F64.ceil F64.toInt
    have he' : ¬ 0 ≤ e := by omega
    simp only [he', if_false, Bool.false_eq_true, le_refl, if_true, Int.toNat_zero, pow_zero,
      mul_one]
    simp only [minInt64_le_natCast, true_and]

theorem pagesOf_spec (a b : Int) (ha : 0 < a) (hb : 0 < b) :
    ∃ ma sa mb sb m s, IsRound (a : ℚ) ma sa ∧ IsRound (b : ℚ) mb sb ∧
      IsRound (((ma : ℚ) * (2 : ℚ) ^ sa) / ((mb : ℚ) * (2 : ℚ) ^ sb)) m s ∧
      pagesOf a b =
        if ⌈(m : ℚ) * (2 : ℚ) ^ s⌉ ≤ maxInt64 then ⌈(m : ℚ) * (2 : ℚ) ^ s⌉ else minInt64 := by
  obtain ⟨ma, sa, ea, ra⟩ := ofInt_pos a ha
  obtain ⟨mb, sb, eb, rb⟩ := ofInt_pos b hb
  obtain ⟨m, s, ed, rd⟩ := div_fin_pos ma mb sa sb ra.man_pos rb.man_pos
  refine ⟨ma, sa, mb, sb, m, s, ra, rb, rd, ?_⟩
  unfold pagesOf
  rw [ea, eb, ed]
  exact toInt_ceil_fin m s

/-! ## The page count -/

theorem ceil_div_eq_one (a b : Nat) (ha : 0 < a) (hab : a ≤ b) : ⌈(a : ℚ) / (b : ℚ)⌉ = 1 := by
  have hbq : (0 : ℚ) < b := by exact_mod_cast lt_of_lt_of_le ha hab
  have haq : (0 : ℚ) < a := by exact_mod_cast ha
  rw [Int.ceil_eq_iff]
  constructor
  · simp only [Int.cast_one, sub_self]; positivity
  · rw [Int.cast_one, div_le_one hbq]; exact_mod_cast hab

/-- With at most `2 ^ 53` items the page count is the exact ceiling of the
quotient. -/
theorem pagesOf_eq_ceil (a b : Int) (ha : 0 < a) (ha2 : a ≤ 2 ^ 53) (hb : 0 < b) :
    pagesOf a b = ⌈(a : ℚ) / (b : ℚ)⌉ := by
  obtain ⟨ma, sa, mb, sb, m, s, ra, rb, rd, hp⟩ := pagesOf_spec a b ha hb
  lift a to ℕ using ha.le
  lift b to ℕ using hb.le
  rw [Int.cast_natCast] at ra rb
  have ha' : a ≤ 2 ^ 53 := by exact_mod_cast ha2
  have hapos : 0 < a := by exact_mod_cast ha
  have hbpos : 0 < b := by exact_mod_cast hb
  rw [ra.exact_nat ha'] at rd
  have hceil : ⌈(m : ℚ) * (2 : ℚ) ^ s⌉ = ⌈(a : ℚ) / (b : ℚ)⌉ := by
    by_cases hbb : b ≤ 2 ^ 53
    · rw [rb.exact_nat hbb] at rd
      exact rd.ceil_eq hbpos ha'
    · push_neg at hbb
      obtain ⟨B, hB, hB2⟩ := rb.big_nat hbb
      rw [hB] at rd
      rw [rd.ceil_eq (by omega) ha', ceil_div_eq_one a B hapos (by omega),
        ceil_div_eq_one a b hapos (by omega)]
  have hle : ⌈(a : ℚ) / (b : ℚ)⌉ ≤ maxInt64 := by
    have h1 : ⌈(a : ℚ) / (b : ℚ)⌉ ≤ (a : Int) := by
      rw [Int.ceil_le]
      have hb1 : (1 : ℚ) ≤ b := by exact_mod_cast hbpos
      have : (a : ℚ) / b ≤ a := div_le_self (by positivity) hb1
      simpa using this
    have h2 : (a : Int) ≤ 2 ^ 53 := ha2
    unfold maxInt64
    have : (2 : Int) ^ 53 ≤ 2 ^ 63 - 1 := by norm_num
    omega
  simp only [Int.cast_natCast]
  rw [hp, hceil, if_pos hle]

/-- A `float64` with a full 53-bit mantissa is not changed by rounding. -/
theorem IsRound.of_float {M m : Nat} {S s : Int}
    (h : IsRound ((M : ℚ) * (2 : ℚ) ^ S) m s) (h1 : 2 ^ 52 ≤ M) (h2 : M < 2 ^ 53) :
    (m : ℚ) * (2 : ℚ) ^ s = (M : ℚ) * (2 : ℚ) ^ S := by
  have hp : (0 : ℚ) < (2 : ℚ) ^ S := by positivity
  have q1 : ((2 : ℚ) ^ (52 : Int)) ≤ (M : ℚ) := by
    have : ((2 ^ 52 : Nat) : ℚ) ≤ (M : ℚ) := by exact_mod_cast h1
    have e : (2 : ℚ) ^ (52 : Int) = ((2 ^ 52 : Nat) : ℚ) := by norm_num
    rw [e]; exact this
  have q2 : (M : ℚ) < ((2 : ℚ) ^ (53 : Int)) := by
    rw [two_zpow_53]; exact_mod_cast h2
  have b1 : (2 : ℚ) ^ (S + 52) ≤ (M : ℚ) * (2 : ℚ) ^ S := by
    rw [zpow_add₀ (by norm_num), mul_comm]
    exact mul_le_mul_of_nonneg_right q1 hp.le
  have b2 : (M : ℚ) * (2 : ℚ) ^ S < (2 : ℚ) ^ (S + 52 + 1) := by
    have : S + 52 + 1 = 53 + S := by ring
    rw [this, zpow_add₀ (by norm_num)]
    exact mul_lt_mul_of_pos_right q2 hp
  have hs : s = S := by
    have := h.exp_eq (S + 52) b1 b2
    omega
  subst hs
  have hy : (M : ℚ) * (2 : ℚ) ^ s * (2 : ℚ) ^ (-s) = (M : ℚ) := by
    rw [mul_assoc, ← zpow_add₀ (by norm_num), add_neg_cancel, zpow_zero, mul_one]
  exact h.exact_val M hy

/-- Rounding a value that is already a `float64` does not increase it. -/
theorem IsRound.round_le {x : ℚ} {m m' : Nat} {s s' : Int} (h : IsRound x m s)
    (h' : IsRound ((m : ℚ) * (2 : ℚ) ^ s) m' s') :
    (m' : ℚ) * (2 : ℚ) ^ s' ≤ (m : ℚ) * (2 : ℚ) ^ s := by
  rcases Nat.lt_or_ge m (2 ^ 53) with hlt | hge
  · exact (h'.of_float h.man_ge hlt).le
  · have hm : m = 2 ^ 53 := le_antisymm h.man_le hge
    have hv : (m : ℚ) * (2 : ℚ) ^ s = (2 : ℚ) ^ (s + 53) := by
      rw [hm, zpow_add₀ (by norm_num), mul_comm]; norm_num
    rw [hv] at h' ⊢
    exact h'.le_pow _ le_rfl

/-- The page count is positive and fits a 64-bit integer, unless one item per page
is combined with an item count that `float64` rounds up to `2 ^ 63`. -/
theorem pagesOf_range (a b : Int) (ha : 0 < a) (ha2 : a ≤ maxInt64) (hb : 0 < b)
    (h1 : b = 1 → a < 2 ^ 63 - 512) : 1 ≤ pagesOf a b ∧ pagesOf a b ≤ maxInt64 := by
  obtain ⟨ma, sa, mb, sb, m, s, ra, rb, rd, hp⟩ := pagesOf_spec a b ha hb
  have rpos : (0 : ℚ) < (m : ℚ) * (2 : ℚ) ^ s := lt_of_lt_of_le (by positivity) rd.val_ge
  have haq : (a : ℚ) ≤ (2 : ℚ) ^ (63 : Int) := by
    have : a ≤ 2 ^ 63 := by unfold maxInt64 at ha2; omega
    have : (a : ℚ) ≤ ((2 ^ 63 : Int) : ℚ) := by exact_mod_cast this
    have e : (2 : ℚ) ^ (63 : Int) = ((2 ^ 63 : Int) : ℚ) := by norm_num
    rw [e]; exact this
  have hva := ra.le_pow 63 haq
  have key : (m : ℚ) * (2 : ℚ) ^ s ≤ (2 : ℚ) ^ 63 - 1024 := by
    by_cases hb1 : b = 1
    · subst hb1
      have hvb : (mb : ℚ) * (2 : ℚ) ^ sb = ((1 : Nat) : ℚ) := by
        have rb' : IsRound ((1 : Nat) : ℚ) mb sb := by simpa using rb
        exact rb'.exact_nat (by norm_num)
      rw [hvb, Nat.cast_one, div_one] at rd
      have hle := ra.round_le rd
      have ha3 : a < 2 ^ 63 - 512 := h1 rfl
      refine le_trans hle ?_
      by_cases hsmall : a ≤ 2 ^ 62
      · have : (a : ℚ) ≤ (2 : ℚ) ^ (62 : Int) := by
          have : (a : ℚ) ≤ ((2 ^ 62 : Int) : ℚ) := by exact_mod_cast hsmall
          have e : (2 : ℚ) ^ (62 : Int) = ((2 ^ 62 : Int) : ℚ) := by norm_num
          rw [e]; exact this
        have := ra.le_pow 62 this
        have e2 : (2 : ℚ) ^ (62 : Int) ≤ (2 : ℚ) ^ 63 - 1024 := by norm_num
        linarith
      · push_neg at hsmall
        have l1 : (2 : ℚ) ^ (62 : Int) ≤ (a : ℚ) := by
          have : ((2 ^ 62 : Int) : ℚ) ≤ (a : ℚ) := by exact_mod_cast hsmall.le
          have e : (2 : ℚ) ^ (62 : Int) = ((2 ^ 62 : Int) : ℚ) := by norm_num
          rw [e]; exact this
        have l2 : (a : ℚ) < (2 : ℚ) ^ ((62 : Int) + 1) := by
          have : (a : ℚ) < ((2 ^ 63 : Int) : ℚ) := by
            have : a < 2 ^ 63 := by omega
            exact_mod_cast this
          have e : (2 : ℚ) ^ ((62 : Int) + 1) = ((2 ^ 63 : Int) : ℚ) := by norm_num
          rw [e]; exact this
        have hs := ra.exp_eq 62 l1 l2
        have hs10 : sa = 10 := by omega
        subst hs10
        have h3 := (abs_le.mp ra.2.2).2
        have ha4 : (a : ℚ) ≤ (2 : ℚ) ^ 63 - 513 := by
          have : a ≤ 2 ^ 63 - 513 := by omega
          have : (a : ℚ) ≤ ((2 ^ 63 - 513 : Int) : ℚ) := by exact_mod_cast this
          have e : ((2 ^ 63 - 513 : Int) : ℚ) = (2 : ℚ) ^ 63 - 513 := by norm_num
          rw [← e]; exact this
        have e10 : (2 : ℚ) ^ (-(10 : Int)) = 1 / 1024 := by norm_num [zpow_neg]
        have e10' : (2 : ℚ) ^ (10 : Int) = 1024 := by norm_num
        rw [e10] at h3
        have hm1 : (ma : ℚ) < (2 : ℚ) ^ 53 := by
          have : (2 : ℚ) ^ 63 = 2 ^ 53 * 1024 := by norm_num
          linarith
        have hm2 : ma < 2 ^ 53 := by exact_mod_cast hm1
        have hm3 : ma + 1 ≤ 2 ^ 53 := hm2
        have hm4 : (ma : ℚ) + 1 ≤ (2 : ℚ) ^ 53 := by exact_mod_cast hm3
        rw [e10']
        have : (2 : ℚ) ^ 63 = 2 ^ 53 * 1024 := by norm_num
        linarith
    · have hb2 : 2 ≤ b := by omega
      have hbq : (2 : ℚ) ^ (1 : Int) ≤ (b : ℚ) := by
        rw [zpow_one]; exact_mod_cast hb2
      have hvb := rb.ge_pow 1 hbq
      rw [zpow_one] at hvb
      have hvbpos : (0 : ℚ) < (mb : ℚ) * (2 : ℚ) ^ sb := by linarith
      have hx : ((ma : ℚ) * (2 : ℚ) ^ sa) / ((mb : ℚ) * (2 : ℚ) ^ sb) ≤ (2 : ℚ) ^ (62 : Int) := by
        rw [div_le_iff₀ hvbpos]
        have e : (2 : ℚ) ^ (63 : Int) = (2 : ℚ) ^ (62 : Int) * 2 := by norm_num
        have p62 : (0 : ℚ) < (2 : ℚ) ^ (62 : Int) := by positivity
        nlinarith
      have := rd.le_pow 62 hx
      have e2 : (2 : ℚ) ^ (62 : Int) ≤ (2 : ℚ) ^ 63 - 1024 := by norm_num
      linarith
  have hc1 : 1 ≤ ⌈(m : ℚ) * (2 : ℚ) ^ s⌉ := Int.one_le_ceil_iff.mpr rpos
  have hc2 : ⌈(m : ℚ) * (2 : ℚ) ^ s⌉ ≤ maxInt64 := by
    rw [Int.ceil_le]
    unfold maxInt64
    push_cast
    linarith
  rw [hp, if_pos hc2]
  exact ⟨hc1, hc2⟩

/-! ## Pager lemmas -/

theorem wrap64_of_range (x : Int) (h1 : -(2 ^ 63) ≤ x) (h2 : x < 2 ^ 63) : wrap64 x = x := by
  unfold wrap64
  have e : ((2 : Int) ^ 64) = 2 ^ 63 + 2 ^ 63 := by norm_num
  rw [Int.emod_eq_of_lt (by omega) (by omega)]
  omega

theorem Atoi_empty : Atoi "" = none := by decide

theorem parseSigned_le_max (neg : Bool) (cs : List Char) (v : Int)
    (h : parseSigned neg cs = some v) : v ≤ maxInt64 := by
  unfold parseSigned at h
  split at h
  · exact absurd h (by simp)
  · cases neg <;> simp only [Bool.false_eq_true, if_false, if_true] at h <;>
      split_ifs at h with hc <;> simp only [Option.some.injEq] at h <;>
      rw [← h] <;> exact hc.2

theorem Atoi_le_max (s : String) (v : Int) (h : Atoi s = some v) : v ≤ maxInt64 := by
  unfold Atoi at h
  split at h <;> exact parseSigned_le_max _ _ _ h

theorem NewPager_fields (ctx : Context) (ipp : Int) :
    (NewPager ctx ipp).Items = 0 ∧ (NewPager ctx ipp).ItemsPerPage = ipp ∧
    (NewPager ctx ipp).Pages = 1 ∧ 1 ≤ (NewPager ctx ipp).Page ∧
    (NewPager ctx ipp).Page ≤ maxInt64 := by
  have hmax : (1 : Int) ≤ maxInt64 := by unfold maxInt64; norm_num
  unfold NewPager
  simp only
  split_ifs with h1
  · split
    · rename_i v hv
      split_ifs with h2
      · exact ⟨rfl, rfl, rfl, by simp only; omega, Atoi_le_max _ _ hv⟩
      · exact ⟨rfl, rfl, rfl, le_rfl, hmax⟩
    · exact ⟨rfl, rfl, rfl, le_rfl, hmax⟩
  · exact ⟨rfl, rfl, rfl, le_rfl, hmax⟩

theorem NewPager_page (ctx : Context) (ipp : Int) :
    (∀ v, Atoi (ctx.QueryParam QueryKey) = some v → 0 < v → (NewPager ctx ipp).Page = v) ∧
    ((∀ v, Atoi (ctx.QueryParam QueryKey) = some v → v ≤ 0) → (NewPager ctx ipp).Page = 1) := by
  unfold NewPager
  simp only
  constructor
  · intro v hv hpos
    have hne : ctx.QueryParam QueryKey ≠ "" := by
      intro he; rw [he, Atoi_empty] at hv; exact absurd hv (by simp)
    rw [if_pos hne, hv]
    simp only [gt_iff_lt, hpos, if_true]
  · intro hall
    split_ifs with h1
    · split
      · rename_i v hv
        have := hall v hv
        have h2 : ¬ v > 0 := by omega
        rw [if_neg h2]
      · rfl
    · rfl

theorem SetItems_fields (p : Pager) (items : Int) :
    (p.SetItems items).Items = items ∧ (p.SetItems items).ItemsPerPage = p.ItemsPerPage ∧
    (p.SetItems items).Pages = (if items > 0 then pagesOf items p.ItemsPerPage else 1) ∧
    (p.SetItems items).Page =
      (if p.Page > (p.SetItems items).Pages then (p.SetItems items).Pages else p.Page) := by
  unfold Pager.SetItems pagesOf
  simp only
  split_ifs <;> simp_all

/-! ## Pager properties -/

/-- The invariant of claim C9 is kept by one `SetItems` step whenever the page
count fits a 64-bit integer. -/
theorem SetItems_keeps_page_range (p : Pager) (items : Int) (hipp : 0 < p.ItemsPerPage)
    (hpage : 1 ≤ p.Page) (hmax : items ≤ maxInt64)
    (hfit : p.ItemsPerPage = 1 → items < 2 ^ 63 - 512) :
    1 ≤ (p.SetItems items).Page ∧ (p.SetItems items).Page ≤ (p.SetItems items).Pages := by
  obtain ⟨_, _, hPages, hPage⟩ := SetItems_fields p items
  have h1 : 1 ≤ (p.SetItems items).Pages := by
    rw [hPages]
    split_ifs with h
    · exact (pagesOf_range items p.ItemsPerPage h hmax hipp hfit).1
    · exact le_rfl
  rw [hPage]
  split_ifs with h
  · exact ⟨h1, le_rfl⟩
  · exact ⟨hpage, by omega⟩

theorem foldl_SetItems_page_range (items : List Int) (p : Pager) (hne : items ≠ [])
    (hipp : 0 < p.ItemsPerPage) (hpage : 1 ≤ p.Page)
    (hok : ∀ i ∈ items, i ≤ maxInt64 ∧ (p.ItemsPerPage = 1 → i < 2 ^ 63 - 512)) :
    1 ≤ (items.foldl Pager.SetItems p).Page ∧
      (items.foldl Pager.SetItems p).Page ≤ (items.foldl Pager.SetItems p).Pages := by
  induction items generalizing p with
  | nil => exact absurd rfl hne
  | cons i is ih =>
    rw [List.foldl_cons]
    have hi := hok i (List.mem_cons_self i is)
    have hI : (p.SetItems i).ItemsPerPage = p.ItemsPerPage := (SetItems_fields p i).2.1
    have hstep := SetItems_keeps_page_range p i hipp hpage hi.1 hi.2
    by_cases hnil : is = []
    · subst hnil
      exact hstep
    · apply ih _ hnil
      · rw [hI]; exact hipp
      · exact hstep.1
      · intro j hj
        rw [hI]
        exact hok j (List.mem_cons_of_mem i hj)

/-- Claim C6, as amended: for a pager with `ItemsPerPage > 0` and an item count of
at most `2 ^ 53`, `SetItems` stores the count in `Items`, leaves `ItemsPerPage`
unchanged, and sets `Pages` to the ceiling of `items / ItemsPerPage` (the least
`n` with `n * ItemsPerPage ≥ items`) when `items > 0` and to `1` otherwise. -/
theorem C6_SetItems_pages (p : Pager) (items : Int) (hipp : 0 < p.ItemsPerPage)
    (hbound : items ≤ 2 ^ 53) :
    (p.SetItems items).Items = items ∧
    (p.SetItems items).ItemsPerPage = p.ItemsPerPage ∧
    (0 < items →
      (p.SetItems items).Pages = ⌈(items : ℚ) / (p.ItemsPerPage : ℚ)⌉ ∧
      items ≤ (p.SetItems items).Pages * p.ItemsPerPage ∧
      ∀ n : Int, items ≤ n * p.ItemsPerPage → (p.SetItems items).Pages ≤ n) ∧
    (items ≤ 0 → (p.SetItems items).Pages = 1) := by
  obtain ⟨hItems, hIpp, hPages, _⟩ := SetItems_fields p items
  refine ⟨hItems, hIpp, ?_, ?_⟩
  · intro hpos
    have hq : (0 : ℚ) < (p.ItemsPerPage : ℚ) := by exact_mod_cast hipp
    have hP : (p.SetItems items).Pages = ⌈(items : ℚ) / (p.ItemsPerPage : ℚ)⌉ := by
      rw [hPages, if_pos hpos]
      exact pagesOf_eq_ceil items p.ItemsPerPage hpos hbound hipp
    refine ⟨hP, ?_, ?_⟩
    · have h1 : (items : ℚ) / (p.ItemsPerPage : ℚ) ≤ ((p.SetItems items).Pages : ℚ) := by
        rw [hP]; exact Int.le_ceil _
      rw [div_le_iff₀ hq] at h1
      exact_mod_cast h1
    · intro n hn
      rw [hP, Int.ceil_le, div_le_iff₀ hq]
      exact_mod_cast hn
  · intro hle
    rw [hPages, if_neg (by omega)]

/-- Witness for C6: ten items per page and ninety-five items give ten pages. -/
theorem C6_SetItems_pages_witness :
    (0 : Int) < (Pager.mk 0 1 10 1).ItemsPerPage ∧ (95 : Int) ≤ 2 ^ 53 ∧
    ((Pager.mk 0 1 10 1).SetItems 95).Items = 95 ∧
    ((Pager.mk 0 1 10 1).SetItems 95).ItemsPerPage = 10 :=
  ⟨by decide, by decide,
    (C6_SetItems_pages (Pager.mk 0 1 10 1) 95 (by decide) (by decide)).1,
    (C6_SetItems_pages (Pager.mk 0 1 10 1) 95 (by decide) (by decide)).2.1⟩

set_option maxRecDepth 100000 in
/-- Counterexample to C6 as stated: with one item per page and `2 ^ 53 + 1` items
the stored page count is `2 ^ 53`, so `Pages * ItemsPerPage` is below `items` and
`Pages` is not the ceiling of `items / ItemsPerPage`. -/
theorem C6_counterexample :
    (0 : Int) < (Pager.mk 0 1 1 1).ItemsPerPage ∧
    ((Pager.mk 0 1 1 1).SetItems 9007199254740993).Pages = 9007199254740992 ∧
    ¬ ((9007199254740993 : Int) ≤
        ((Pager.mk 0 1 1 1).SetItems 9007199254740993).Pages *
          ((Pager.mk 0 1 1 1).SetItems 9007199254740993).ItemsPerPage) := by
  decide

/-- Claim C9, as amended: for `itemsPerPage > 0`, any query and any sequence of
item counts that are 64-bit integers, none of them `2 ^ 63 - 512` or more when
`itemsPerPage` is one, the pager built by `NewPager` and updated by `SetItems`
satisfies `1 ≤ Page ≤ Pages` after every step; straight after `NewPager`,
`Pages = 1` and `Page ≥ 1`, where `Page` is the query value when it parses as a
positive integer and `1` otherwise. -/
theorem C9_page_within_pages (ctx : Context) (itemsPerPage : Int) (items : List Int)
    (hipp : 0 < itemsPerPage)
    (hok : ∀ i ∈ items, i ≤ maxInt64 ∧ (itemsPerPage = 1 → i < 2 ^ 63 - 512)) :
    (NewPager ctx itemsPerPage).Pages = 1 ∧ 1 ≤ (NewPager ctx itemsPerPage).Page ∧
    (∀ v, Atoi (ctx.QueryParam QueryKey) = some v → 0 < v →
      (NewPager ctx itemsPerPage).Page = v) ∧
    ((∀ v, Atoi (ctx.QueryParam QueryKey) = some v → v ≤ 0) →
      (NewPager ctx itemsPerPage).Page = 1) ∧
    ∀ k : Nat, 0 < k → k ≤ items.length →
      1 ≤ ((items.take k).foldl Pager.SetItems (NewPager ctx itemsPerPage)).Page ∧
      ((items.take k).foldl Pager.SetItems (NewPager ctx itemsPerPage)).Page ≤
        ((items.take k).foldl Pager.SetItems (NewPager ctx itemsPerPage)).Pages := by
  obtain ⟨_, hI, hPages, hPage, _⟩ := NewPager_fields ctx itemsPerPage
  refine ⟨hPages, hPage, (NewPager_page ctx itemsPerPage).1, (NewPager_page ctx itemsPerPage).2, ?_⟩
  intro k hk hkl
  apply foldl_SetItems_page_range
  · intro hnil
    have := congrArg List.length hnil
    rw [List.length_take] at this
    simp only [List.length_nil] at this
    omega
  · rw [hI]; exact hipp
  · exact hPage
  · intro i hi
    rw [hI]
    exact hok i (List.mem_of_mem_take hi)

/-- Witness for C9: three items per page, the query `page=7`, and the item counts
10, 0 and 25. -/
theorem C9_page_within_pages_witness :
    (0 : Int) < 3 ∧
    (∀ i ∈ [(10 : Int), 0, 25], i ≤ maxInt64 ∧ ((3 : Int) = 1 → i < 2 ^ 63 - 512)) ∧
    (1 : Int) ≤ (([10, 0, 25].take 3).foldl Pager.SetItems
        (NewPager (Context.mk "GET" "/items" [("page", "7")] "" none) 3)).Page ∧
      (([10, 0, 25].take 3).foldl Pager.SetItems (NewPager (Context.mk "GET" "/items" [("page", "7")] "" none) 3)).Page ≤
        (([10, 0, 25].take 3).foldl Pager.SetItems (NewPager (Context.mk "GET" "/items" [("page", "7")] "" none) 3)).Pages :=
  ⟨by decide, by decide,
    (C9_page_within_pages (Context.mk "GET" "/items" [("page", "7")] "" none) 3 [10, 0, 25] (by decide) (by decide)).2.2.2.2 3
      (by decide) (by decide)⟩

set_option maxRecDepth 100000 in
/-- Counterexample to C9 as stated: with one item per page, no query and the single
item count `2 ^ 63 - 1`, the quotient rounds to `2 ^ 63`, the conversion to `int`
yields the smallest integer, and `Page` follows it below one. -/
theorem C9_counterexample :
    (0 : Int) < 1 ∧ (9223372036854775807 : Int) ≤ maxInt64 ∧
    ([9223372036854775807].foldl Pager.SetItems (NewPager (Context.mk "GET" "/items" [] "" none) 1)).Pages = minInt64 ∧
    ¬ (1 ≤ ([9223372036854775807].foldl Pager.SetItems (NewPager (Context.mk "GET" "/items" [] "" none) 1)).Page) := by
  decide

theorem GetOffset_pager (q : Pager) :
    (q.Page ≠ 0 → q.GetOffset.2 = q) ∧
    (q.Page = 0 → q.GetOffset.2 = { q with Page := 1 } ∧ q.GetOffset.1 = 0) := by
  unfold Pager.GetOffset
  constructor
  · intro h
    simp only [h, if_false]
  · intro h
    have w0 : wrap64 0 = 0 := by decide
    simp only [h, if_true, sub_self, w0, zero_mul, and_self]

/-- Claim C10, as amended: for `itemsPerPage > 0`, any query and `0 < items ≤ 2 ^ 53`,
the pager built by `NewPager` followed by `SetItems(items)` has
`GetOffset() = (Page - 1) * ItemsPerPage` with `0 ≤ GetOffset() < Items`; and
`GetOffset` leaves every field of any pager unchanged unless `Page` is `0`, in
which case it sets `Page` to `1` and returns `0`. -/
theorem C10_offset_in_range (ctx : Context) (itemsPerPage items : Int)
    (hipp : 0 < itemsPerPage) (hpos : 0 < items) (hbound : items ≤ 2 ^ 53) :
    (((NewPager ctx itemsPerPage).SetItems items).GetOffset.1 =
      (((NewPager ctx itemsPerPage).SetItems items).Page - 1) *
        ((NewPager ctx itemsPerPage).SetItems items).ItemsPerPage) ∧
    0 ≤ ((NewPager ctx itemsPerPage).SetItems items).GetOffset.1 ∧
    ((NewPager ctx itemsPerPage).SetItems items).GetOffset.1 <
      ((NewPager ctx itemsPerPage).SetItems items).Items ∧
    ∀ q : Pager, (q.Page ≠ 0 → q.GetOffset.2 = q) ∧
      (q.Page = 0 → q.GetOffset.2 = { q with Page := 1 } ∧ q.GetOffset.1 = 0) := by
  obtain ⟨_, hI0, _, hPage0, _⟩ := NewPager_fields ctx itemsPerPage
  obtain ⟨hItems, hIpp, hPages, hPage⟩ := SetItems_fields (NewPager ctx itemsPerPage) items
  rw [hI0] at hIpp hPages
  rw [if_pos hpos, pagesOf_eq_ceil items itemsPerPage hpos hbound hipp] at hPages
  have hq : (0 : ℚ) < (itemsPerPage : ℚ) := by exact_mod_cast hipp
  have hiq : (0 : ℚ) < (items : ℚ) := by exact_mod_cast hpos
  have hK1 : 1 ≤ ⌈(items : ℚ) / (itemsPerPage : ℚ)⌉ := Int.one_le_ceil_iff.mpr (by positivity)
  have hK2 : (⌈(items : ℚ) / (itemsPerPage : ℚ)⌉ - 1) * itemsPerPage < items := by
    have h1 : ⌈(items : ℚ) / (itemsPerPage : ℚ)⌉ - 1 < ⌈(items : ℚ) / (itemsPerPage : ℚ)⌉ := by
      omega
    rw [Int.lt_ceil, lt_div_iff₀ hq] at h1
    exact_mod_cast h1
  generalize ⌈(items : ℚ) / (itemsPerPage : ℚ)⌉ = K at hPages hK1 hK2
  generalize (NewPager ctx itemsPerPage).SetItems items = p at hItems hIpp hPages hPage
  have hP1 : 1 ≤ p.Page := by
    rw [hPage]; split_ifs <;> omega
  have hP2 : p.Page ≤ K := by
    rw [hPage]; split_ifs <;> omega
  have hmul : (p.Page - 1) * itemsPerPage ≤ (K - 1) * itemsPerPage :=
    mul_le_mul_of_nonneg_right (by omega) hipp.le
  have hnn : 0 ≤ (p.Page - 1) * itemsPerPage := mul_nonneg (by omega) hipp.le
  have hlt : (p.Page - 1) * itemsPerPage < items := lt_of_le_of_lt hmul hK2
  have h53 : (2 : Int) ^ 53 < 2 ^ 63 := by norm_num
  have hKle : (K - 1) * 1 ≤ (K - 1) * itemsPerPage :=
    mul_le_mul_of_nonneg_left (by omega) (by omega)
  have hoff : p.GetOffset.1 = (p.Page - 1) * p.ItemsPerPage := by
    unfold Pager.GetOffset
    have hne : p.Page ≠ 0 := by omega
    simp only [hne, if_false]
    rw [hIpp, wrap64_of_range (p.Page - 1) (by omega) (by omega),
      wrap64_of_range _ (by omega) (by omega)]
  refine ⟨hoff, ?_, ?_, GetOffset_pager⟩
  · rw [hoff, hIpp]; exact hnn
  · rw [hoff, hIpp, hItems]; exact hlt

/-- Witness for C10: three items per page, the query `page=2` and ten items. -/
theorem C10_offset_in_range_witness :
    (0 : Int) < 3 ∧ (0 : Int) < 10 ∧ (10 : Int) ≤ 2 ^ 53 ∧
    0 ≤ ((NewPager (Context.mk "GET" "/items" [("page", "2")] "" none) 3).SetItems 10).GetOffset.1 ∧
    ((NewPager (Context.mk "GET" "/items" [("page", "2")] "" none) 3).SetItems 10).GetOffset.1 <
      ((NewPager (Context.mk "GET" "/items" [("page", "2")] "" none) 3).SetItems 10).Items :=
  ⟨by decide, by decide, by decide,
    (C10_offset_in_range (Context.mk "GET" "/items" [("page", "2")] "" none) 3 10 (by decide) (by decide) (by decide)).2.1,
    (C10_offset_in_range (Context.mk "GET" "/items" [("page", "2")] "" none) 3 10 (by decide) (by decide) (by decide)).2.2.1⟩

set_option maxRecDepth 100000 in
/-- Counterexample to C10 as stated: with one item per page, the query
`page=9007199254740996` and `2 ^ 53 + 3` items, the item count rounds up to
`2 ^ 53 + 4` pages, the requested page is kept, and the offset equals `Items`
instead of lying below it. -/
theorem C10_counterexample :
    (0 : Int) < 1 ∧ (0 : Int) < 9007199254740995 ∧
    ((NewPager (Context.mk "GET" "/items" [("page", "9007199254740996")] "" none) 1).SetItems 9007199254740995).GetOffset.1 =
      9007199254740995 ∧
    ¬ (((NewPager (Context.mk "GET" "/items" [("page", "9007199254740996")] "" none) 1).SetItems 9007199254740995).GetOffset.1 <
      ((NewPager (Context.mk "GET" "/items" [("page", "9007199254740996")] "" none) 1).SetItems 9007199254740995).Items) := by
  decide

/-! ## The fatal-error policy and the lifecycle of `main` -/

theorem bind_eq (α β : Type) (p : Proc α) (k : α → Proc β) : (p >>= k) = Proc.bind p k := rfl

theorem pure_eq (α : Type) (a : α) : (pure a : Proc α) = Proc.pure a := rfl

/-- Claim C2: `fatal(msg, err)` with a nil error logs nothing, does not terminate
and returns to its caller, whose continuation runs unchanged; with a non-nil error
it logs exactly one error record carrying `msg` and the error as the `"error"`
field, then ends the process with exit status 1, and no continuation runs. -/
theorem C2_fatal_policy (msg : String) :
    fatal msg none = { trace := [], out := .ret () } ∧
    (∀ k : Unit → Proc Unit, (fatal msg none >>= k) = k ()) ∧
    (∀ e : Err,
      fatal msg (some e) =
        { trace := [.logError msg [("error", .err e)]], out := .exit 1 } ∧
      exitStatus (fatal msg (some e)) = some 1 ∧
      ∀ k : Unit → Proc Unit, (fatal msg (some e) >>= k) = fatal msg (some e)) := by
  refine ⟨rfl, ?_, ?_⟩
  · intro k
    show Proc.bind (Proc.pure ()) k = k ()
    simp [Proc.bind, Proc.pure]
  · intro e
    exact ⟨rfl, rfl, fun k => rfl⟩

/-- The whole run of `main` when the container is constructed, the router is built
and a signal arrives: the startup actions, one container shutdown, and the tail
decided by how the shutdown ends. -/
theorem main_of_startup (w : World) (c : Container) (s : Signal)
    (hc : w.newContainer = .returns c) (hr : w.buildRouter = .returns none)
    (hs : w.signal = some s) :
    main w =
      { trace := startupTrace w c s ++ [.containerShutdown] ++ (shutdownTail w.shutdown).1,
        out := (shutdownTail w.shutdown).2 } := by
  unfold main
  simp only [bind_eq, pure_eq, hc, hr, hs]
  rcases hsd : w.shutdown with r | v | _
  · rcases r with _ | e
    · simp [Proc.bind, Proc.pure, deferring, shutdownContainer, recoverPanic, fatal, call,
        emit, osExit, hsd, startupTrace, shutdownTail, bind_eq, pure_eq]
    · simp [Proc.bind, Proc.pure, deferring, shutdownContainer, recoverPanic, fatal, call,
        emit, osExit, hsd, startupTrace, shutdownTail, bind_eq, pure_eq]
  · simp [Proc.bind, Proc.pure, deferring, shutdownContainer, recoverPanic, fatal, call,
      emit, osExit, hsd, startupTrace, shutdownTail, bind_eq, pure_eq]
  · simp [Proc.bind, Proc.pure, deferring, shutdownContainer, recoverPanic, fatal, call,
      emit, osExit, hsd, startupTrace, shutdownTail, bind_eq, pure_eq]

theorem shutdownTail_no_teardown (r : Ext GoError) :
    (shutdownTail r).1.filter Event.isTeardown = [] ∧
    (shutdownTail r).1.count .containerShutdown = 0 ∧
    ∀ e ∈ (shutdownTail r).1, e.isListenerStop = false := by
  rcases r with r | v | _
  · rcases r with _ | e <;> simp [shutdownTail, Event.isTeardown, Event.isListenerStop]
  · simp [shutdownTail, Event.isTeardown, Event.isListenerStop]
  · simp [shutdownTail, Event.isTeardown, Event.isListenerStop]

theorem afterSignal_startup (w : World) (c : Container) (s : Signal) (rest : List Event) :
    afterSignal (startupTrace w c s ++ rest) = rest := by
  simp [startupTrace, afterSignal]

/-- Claim C3, as amended: in every run of `main` in which startup succeeds and a
termination signal is received, the teardown calls `main` performs after the signal
are exactly one container shutdown (`c.Shutdown`), invoked exactly once in the
whole run; `main` itself performs no stop of the listener. -/
theorem C3_teardown_is_one_container_shutdown (w : World) (c : Container) (s : Signal)
    (hc : w.newContainer = .returns c) (hr : w.buildRouter = .returns none)
    (hs : w.signal = some s) :
    (afterSignal (main w).trace).filter Event.isTeardown = [.containerShutdown] ∧
    (afterSignal (main w).trace).head? = some .containerShutdown ∧
    (main w).trace.count .containerShutdown = 1 ∧
    ∀ e ∈ (main w).trace, e.isListenerStop = false := by
  obtain ⟨t1, t2, t3⟩ := shutdownTail_no_teardown w.shutdown
  rw [main_of_startup w c s hc hr hs]
  simp only [List.append_assoc, afterSignal_startup]
  refine ⟨?_, ?_, ?_, ?_⟩
  · simp [List.filter_cons, Event.isTeardown, t1]
  · simp
  · rw [List.count_append, List.count_append, t2]
    simp [startupTrace]
  · intro e he
    rw [List.mem_append, List.mem_append] at he
    rcases he with he | he | he
    · simp only [startupTrace, List.mem_cons, List.mem_singleton, List.not_mem_nil,
        or_false] at he
      rcases he with h | h | h | h | h | h | h | h | h | h | h | h | h <;> rw [h] <;> rfl
    · simp only [List.mem_singleton] at he
      rw [he]; rfl
    · exact t3 e he

/-- Witness for C3: the sample run. -/
theorem C3_teardown_is_one_container_shutdown_witness :
    sampleWorld.newContainer = .returns sampleContainer ∧
    sampleWorld.buildRouter = .returns none ∧
    sampleWorld.signal = some .interrupt ∧
    (afterSignal (main sampleWorld).trace).filter Event.isTeardown = [.containerShutdown] :=
  ⟨rfl, rfl, rfl,
    (C3_teardown_is_one_container_shutdown sampleWorld sampleContainer .interrupt
      rfl rfl rfl).1⟩

/-- Counterexample to C3 as stated: in the sample run startup succeeds and an
interrupt is received, and the teardown calls of `main` are the container shutdown
alone; they are not a stop of the listener followed by the container shutdown. -/
theorem C3_counterexample :
    sampleWorld.newContainer = .returns sampleContainer ∧
    sampleWorld.buildRouter = .returns none ∧
    sampleWorld.signal = some .interrupt ∧
    (afterSignal (main sampleWorld).trace).filter Event.isTeardown = [.containerShutdown] ∧
    ¬ ∃ deadline : Int,
      (afterSignal (main sampleWorld).trace).filter Event.isTeardown =
        [.serverShutdown deadline, .containerShutdown] := by
  have h : (afterSignal (main sampleWorld).trace).filter Event.isTeardown =
      [.containerShutdown] := by decide
  refine ⟨rfl, rfl, rfl, h, ?_⟩
  rintro ⟨d, hd⟩
  rw [h] at hd
  exact absurd hd (by simp)

/-! ## The listener task -/

/-- The run of the listener task when TLS is disabled. -/
theorem listenerTask_plain (w : World) (c : Container)
    (hTLS : c.Config.HTTP.TLS.Enabled = false) :
    listenerTask w c =
      Proc.bind (emit (.logInfo "Server starting"
        [("address", .str (serverFor c none).Addr), ("tls_enabled", .bool false)]))
        (fun _ => Proc.bind (call (.startServer (serverFor c none)) w.startServer)
          (fun err => if errorsIs err .serverClosed then fatal "shutting down the server" err
            else Proc.pure ())) := by
  unfold listenerTask
  simp [bind_eq, pure_eq, hTLS, serverFor, Proc.bind, Proc.pure, emit]

/-- The listener task treats exactly the "server closed" condition as fatal: it
exits with status 1 when `StartServer` returns an error matching
`http.ErrServerClosed`, and returns silently for every other result. -/
theorem listenerTask_fatal_iff_closed (w : World) (c : Container) (err : GoError)
    (hTLS : c.Config.HTTP.TLS.Enabled = false) (hret : w.startServer = .returns err) :
    ((listenerTask w c).out = .exit 1 ↔ errorsIs err .serverClosed = true) ∧
    ((listenerTask w c).out = .ret () ↔ errorsIs err .serverClosed = false) := by
  rw [listenerTask_plain w c hTLS, hret]
  by_cases h : errorsIs err .serverClosed = true
  · have hne : ∃ e, err = some e := by
      rcases err with _ | e
      · simp [errorsIs] at h
      · exact ⟨e, rfl⟩
    obtain ⟨e, rfl⟩ := hne
    simp [Proc.bind, Proc.pure, emit, call, h, fatal, bind_eq, osExit]
  · simp [Proc.bind, Proc.pure, emit, call, h]

/-- Claim C1, evaluated on the code: when `StartServer` returns
`http.ErrServerClosed` the listener task logs it through the fatal policy and exits
with status 1, and when it returns an unexpected failure of the listener the task
logs nothing and returns normally; the check is the reverse of the claim. -/
theorem C1_server_closed_treated_as_fatal :
    sampleWorld.startServer = .returns (some .serverClosed) ∧
    (listenerTask sampleWorld sampleContainer).out = .exit 1 ∧
    (listenerTask sampleWorld sampleContainer).trace.getLast? =
      some (.logError "shutting down the server" [("error", .err .serverClosed)]) ∧
    bindFailureWorld.startServer =
      .returns (some (.other "listen tcp: address already in use")) ∧
    (listenerTask bindFailureWorld sampleContainer).out = .ret () ∧
    (listenerTask bindFailureWorld sampleContainer).trace.getLast? =
      some (.startServer (serverFor sampleContainer none)) := by
  refine ⟨rfl, ?_, ?_, rfl, ?_, ?_⟩
  · rw [listenerTask_plain sampleWorld sampleContainer rfl]; rfl
  · rw [listenerTask_plain sampleWorld sampleContainer rfl]; rfl
  · rw [listenerTask_plain bindFailureWorld sampleContainer rfl]; rfl
  · rw [listenerTask_plain bindFailureWorld sampleContainer rfl]; rfl

/-- The run of the listener task when TLS is enabled. -/
theorem listenerTask_tls (w : World) (c : Container)
    (hTLS : c.Config.HTTP.TLS.Enabled = true) :
    listenerTask w c =
      Proc.bind (emit (.loadX509KeyPair c.Config.HTTP.TLS.Certificate c.Config.HTTP.TLS.Key))
        (fun _ => Proc.bind
          (fatal "cannot load TLS certificate"
            (w.loadX509KeyPair c.Config.HTTP.TLS.Certificate c.Config.HTTP.TLS.Key).2)
          (fun _ => Proc.bind
            (emit (.logInfo "Server starting"
              [("address", .str (serverFor c none).Addr), ("tls_enabled", .bool true)]))
            (fun _ => Proc.bind
              (call (.startServer (serverFor c (some { Certificates :=
                [(w.loadX509KeyPair c.Config.HTTP.TLS.Certificate
                  c.Config.HTTP.TLS.Key).1] }))) w.startServer)
              (fun err =>
                if errorsIs err .serverClosed then fatal "shutting down the server" err
                else Proc.pure ())))) := by
  unfold listenerTask
  simp only [bind_eq, pure_eq, hTLS, if_true, serverFor]
  rcases hl : (w.loadX509KeyPair c.Config.HTTP.TLS.Certificate c.Config.HTTP.TLS.Key).2
    with _ | e
  · simp [Proc.bind, Proc.pure, emit, fatal, pure_eq]
  · simp [Proc.bind, Proc.pure, emit, fatal, bind_eq, osExit]

/-- Claim C4: with TLS enabled, a failed load of the certificate/key pair ends the
listener task through the fatal policy with exit status 1 before `StartServer` is
called, so no listener is bound; and when the load succeeds it happens before
`StartServer`, which is given a server whose `TLSConfig` holds exactly the one
loaded certificate. -/
theorem C4_tls_load_precedes_listener (w : World) (c : Container)
    (hTLS : c.Config.HTTP.TLS.Enabled = true) :
    (∀ e, (w.loadX509KeyPair c.Config.HTTP.TLS.Certificate c.Config.HTTP.TLS.Key).2 = some e →
      listenerTask w c =
        { trace := [.loadX509KeyPair c.Config.HTTP.TLS.Certificate c.Config.HTTP.TLS.Key,
                    .logError "cannot load TLS certificate" [("error", .err e)]],
          out := .exit 1 } ∧
      exitStatus (listenerTask w c) = some 1 ∧
      ∀ srv, Event.startServer srv ∉ (listenerTask w c).trace) ∧
    ((w.loadX509KeyPair c.Config.HTTP.TLS.Certificate c.Config.HTTP.TLS.Key).2 = none →
      (listenerTask w c).trace.take 3 =
        [.loadX509KeyPair c.Config.HTTP.TLS.Certificate c.Config.HTTP.TLS.Key,
         .logInfo "Server starting"
           [("address", .str (serverFor c none).Addr), ("tls_enabled", .bool true)],
         .startServer (serverFor c (some { Certificates :=
           [(w.loadX509KeyPair c.Config.HTTP.TLS.Certificate c.Config.HTTP.TLS.Key).1] }))] ∧
      ∀ srv, Event.startServer srv ∈ (listenerTask w c).trace →
        srv.TLSConfig = some { Certificates :=
          [(w.loadX509KeyPair c.Config.HTTP.TLS.Certificate c.Config.HTTP.TLS.Key).1] }) := by
  rw [listenerTask_tls w c hTLS]
  constructor
  · intro e he
    rw [he]
    simp [Proc.bind, emit, fatal, bind_eq, osExit, exitStatus]
  · intro hn
    rw [hn]
    rcases hss : w.startServer with r | v | _
    · by_cases hcl : errorsIs r .serverClosed = true
      · have hne : ∃ e, r = some e := by
          rcases r with _ | e
          · simp [errorsIs] at hcl
          · exact ⟨e, rfl⟩
        obtain ⟨e, rfl⟩ := hne
        simp [Proc.bind, Proc.pure, emit, fatal, pure_eq, bind_eq, call, hcl, osExit]
        rfl
      · simp [Proc.bind, Proc.pure, emit, fatal, pure_eq, call, hcl]
        rfl
    · simp [Proc.bind, Proc.pure, emit, fatal, pure_eq, call]
      rfl
    · simp [Proc.bind, Proc.pure, emit, fatal, pure_eq, call]
      rfl

/-- Witness for C4: TLS is enabled and the certificate file cannot be read. -/
theorem C4_tls_load_precedes_listener_witness :
    sampleTLSContainer.Config.HTTP.TLS.Enabled = true ∧
    (badCertWorld.loadX509KeyPair "cert.pem" "key.pem").2 =
      some (.other "open cert.pem: no such file") ∧
    exitStatus (listenerTask badCertWorld sampleTLSContainer) = some 1 :=
  ⟨rfl, rfl,
    ((C4_tls_load_precedes_listener badCertWorld sampleTLSContainer rfl).1 _ rfl).2.1⟩

/-! ## The exit status of the process -/

/-- How a run of two threads stands once the schedule is spent: the process has not
ended, or `main` ended it with its own status after performing all its actions, or
the listener task ended it by `os.Exit` or by a panic. -/
theorem runThreads_end (m l : Proc Unit) (sched : List Thread) :
    ∀ (mrest lrest : List Event) (spawned ldone : Bool) (acc : List Event),
      ((runThreads m l sched mrest lrest spawned ldone acc).endedBy = none ∧
        (runThreads m l sched mrest lrest spawned ldone acc).status = none) ∨
      ((runThreads m l sched mrest lrest spawned ldone acc).endedBy = some .main ∧
        (runThreads m l sched mrest lrest spawned ldone acc).status = exitStatus m ∧
        exitStatus m ≠ none ∧
        ∀ e, e ∈ acc ∨ e ∈ mrest →
          e ∈ (runThreads m l sched mrest lrest spawned ldone acc).trace) ∨
      ((runThreads m l sched mrest lrest spawned ldone acc).endedBy = some .listener ∧
        (runThreads m l sched mrest lrest spawned ldone acc).status = exitStatus l ∧
        ((∃ c, l.out = .exit c) ∨ ∃ v, l.out = .panic v)) := by
  induction sched with
  | nil =>
    intro mrest lrest spawned ldone acc
    left
    simp [runThreads]
  | cons t sched ih =>
    intro mrest lrest spawned ldone acc
    cases t with
    | main =>
      cases mrest with
      | cons e mrest' =>
        simp only [runThreads]
        rcases ih mrest' lrest (spawned || decide (e = .spawnListener)) ldone (acc ++ [e])
          with h | h | h
        · exact Or.inl h
        · refine Or.inr (Or.inl ⟨h.1, h.2.1, h.2.2.1, ?_⟩)
          intro x hx
          apply h.2.2.2
          rcases hx with hx | hx
          · exact Or.inl (List.mem_append_left _ hx)
          · rcases List.mem_cons.mp hx with hx | hx
            · exact Or.inl (by rw [hx]; simp)
            · exact Or.inr hx
        · exact Or.inr (Or.inr h)
      | nil =>
        rcases hout : m.out with a | c | v | _
        · right; left
          simp [runThreads, hout, exitStatus]
        · right; left
          simp [runThreads, hout, exitStatus]
        · right; left
          simp [runThreads, hout, exitStatus]
        · simp only [runThreads, hout]
          exact ih [] lrest spawned ldone acc
    | listener =>
      by_cases hcnd : spawned = false ∨ ldone = true
      · simp only [runThreads, hcnd, if_true]
        exact ih mrest lrest spawned ldone acc
      · cases lrest with
        | cons e lrest' =>
          simp only [runThreads, hcnd, if_false]
          rcases ih mrest lrest' spawned ldone (acc ++ [e]) with h | h | h
          · exact Or.inl h
          · refine Or.inr (Or.inl ⟨h.1, h.2.1, h.2.2.1, ?_⟩)
            intro x hx
            apply h.2.2.2
            rcases hx with hx | hx
            · exact Or.inl (List.mem_append_left _ hx)
            · exact Or.inr hx
          · exact Or.inr (Or.inr h)
        | nil =>
          rcases hout : l.out with a | c | v | _
          · simp only [runThreads, hcnd, if_false, hout]
            have h := ih mrest [] spawned true acc
            rw [hout] at h
            exact h
          · right; right
            simp [runThreads, hcnd, hout, exitStatus]
          · right; right
            simp [runThreads, hcnd, hout, exitStatus]
          · simp only [runThreads, hcnd, if_false, hout]
            have h := ih mrest [] spawned ldone acc
            rw [hout] at h
            exact h

/-- When `main` is scheduled alone for long enough and does not block, it ends the
process. -/
theorem runThreads_main_only (m l : Proc Unit) (hb : m.out ≠ .block) :
    ∀ (mrest lrest : List Event) (spawned ldone : Bool) (acc : List Event),
      (runThreads m l (List.replicate (mrest.length + 1) .main) mrest lrest spawned ldone
        acc).endedBy = some .main := by
  intro mrest
  induction mrest with
  | nil =>
    intro lrest spawned ldone acc
    rcases hout : m.out with a | c | v | _
    · simp [runThreads, hout, List.replicate]
    · simp [runThreads, hout, List.replicate]
    · simp [runThreads, hout, List.replicate]
    · exact absurd hout hb
  | cons e mrest ih =>
    intro lrest spawned ldone acc
    rw [List.length_cons, List.replicate_succ]
    simp only [runThreads]
    exact ih lrest _ ldone _

/-- The listener task never calls `os.Exit` with a status other than 1. -/
theorem listenerTask_exit_code (w : World) (c : Container) (code : Int)
    (h : (listenerTask w c).out = .exit code) : code = 1 := by
  cases hT : c.Config.HTTP.TLS.Enabled with
  | false =>
    rw [listenerTask_plain w c hT] at h
    rcases hss : w.startServer with r | v | _
    · by_cases hcl : errorsIs r .serverClosed = true
      · have hne : ∃ e, r = some e := by
          rcases r with _ | e
          · simp [errorsIs] at hcl
          · exact ⟨e, rfl⟩
        obtain ⟨e, rfl⟩ := hne
        simp [Proc.bind, Proc.pure, emit, call, hcl, fatal, bind_eq, osExit, hss] at h
        exact h.symm
      · simp [Proc.bind, Proc.pure, emit, call, hcl, hss] at h
    · simp [Proc.bind, Proc.pure, emit, call, hss] at h
    · simp [Proc.bind, Proc.pure, emit, call, hss] at h
  | true =>
    rw [listenerTask_tls w c hT] at h
    rcases hl : (w.loadX509KeyPair c.Config.HTTP.TLS.Certificate c.Config.HTTP.TLS.Key).2
      with _ | e
    · rw [hl] at h
      rcases hss : w.startServer with r | v | _
      · by_cases hcl : errorsIs r .serverClosed = true
        · have hne : ∃ e, r = some e := by
            rcases r with _ | e
            · simp [errorsIs] at hcl
            · exact ⟨e, rfl⟩
          obtain ⟨e, rfl⟩ := hne
          simp [Proc.bind, Proc.pure, emit, call, hcl, fatal, bind_eq, pure_eq, osExit,
            hss] at h
          exact h.symm
        · simp [Proc.bind, Proc.pure, emit, call, hcl, fatal, pure_eq, hss] at h
      · simp [Proc.bind, Proc.pure, emit, call, fatal, pure_eq, hss] at h
      · simp [Proc.bind, Proc.pure, emit, call, fatal, pure_eq, hss] at h
    · rw [hl] at h
      simp [Proc.bind, emit, fatal, bind_eq, osExit] at h
      exact h.symm

/-- Whenever the listener task of a run ends the process, the status is not 0. -/
theorem listenerOf_status_ne_zero (w : World)
    (h : (∃ c, (listenerOf w).out = .exit c) ∨ ∃ v, (listenerOf w).out = .panic v) :
    ∃ code, exitStatus (listenerOf w) = some code ∧ code ≠ 0 := by
  rcases h with ⟨c, hc⟩ | ⟨v, hv⟩
  · refine ⟨c, by simp [exitStatus, hc], ?_⟩
    unfold listenerOf at hc
    rcases hnc : w.newContainer with k | v | _
    · rw [hnc] at hc
      rw [listenerTask_exit_code w k c hc]
      decide
    · rw [hnc] at hc
      simp [Proc.pure] at hc
    · rw [hnc] at hc
      simp [Proc.pure] at hc
  · exact ⟨2, by simp [exitStatus, hv], by decide⟩

/-- The main thread of a run in which the container is constructed, the router is
built and a signal arrives. -/
theorem mainThread_of_startup (w : World) (c : Container) (s : Signal)
    (hc : w.newContainer = .returns c) (hr : w.buildRouter = .returns none)
    (hs : w.signal = some s) :
    mainThread w =
      { trace := Event.println "INIT FUNCTION RUNNING - IF YOU SEE THIS, INIT FUNCTIONS WORK" ::
          (startupTrace w c s ++ [.containerShutdown] ++ (shutdownTail w.shutdown).1),
        out := (shutdownTail w.shutdown).2 } := by
  unfold mainThread
  rw [main_of_startup w c s hc hr hs]
  simp [Proc.bind, init, emit]

theorem shutdownTail_status (r : Ext GoError) (t : List Event) :
    (exitStatus { trace := t, out := (shutdownTail r).2 } = some 0 ↔ r = .returns none) ∧
    (∀ e, r = .returns (some e) →
      exitStatus { trace := t, out := (shutdownTail r).2 } = some 1 ∧
      Event.logError "shutdown failed" [("error", .err e)] ∈ (shutdownTail r).1) ∧
    (r ≠ .blocks → (shutdownTail r).2 ≠ .block) := by
  rcases r with r | v | _
  · rcases r with _ | e <;> simp [shutdownTail, exitStatus]
  · simp [shutdownTail, exitStatus]
  · simp [shutdownTail, exitStatus]

/-- Claim C5, as amended: in every run of the process in which startup succeeds and
a termination signal is delivered, the exit status is 0 exactly when `main` itself
ends the process and the container shutdown returned nil.  When `main` ends the
process and the shutdown returned a non-nil error, that error is logged as
"shutdown failed" and the status is 1.  When the listener task ends the process
first, the status is not 0.  Unless the shutdown never returns, there is a schedule
under which `main` ends the process. -/
theorem C5_process_exit_status (w : World) (c : Container) (s : Signal)
    (sched : List Thread) (hc : w.newContainer = .returns c)
    (hr : w.buildRouter = .returns none) (hs : w.signal = some s) :
    ((runProcess w sched).status = some 0 ↔
      (runProcess w sched).endedBy = some .main ∧ w.shutdown = .returns none) ∧
    ((runProcess w sched).endedBy = some .main →
      ∀ e, w.shutdown = .returns (some e) →
        (runProcess w sched).status = some 1 ∧
        Event.logError "shutdown failed" [("error", .err e)] ∈ (runProcess w sched).trace) ∧
    ((runProcess w sched).endedBy = some .listener →
      ∃ code, (runProcess w sched).status = some code ∧ code ≠ 0) ∧
    (w.shutdown ≠ .blocks → ∃ sched', (runProcess w sched').endedBy = some .main) := by
  have hm := mainThread_of_startup w c s hc hr hs
  obtain ⟨t1, t2, t5⟩ := shutdownTail_status w.shutdown
    (Event.println "INIT FUNCTION RUNNING - IF YOU SEE THIS, INIT FUNCTIONS WORK" ::
      (startupTrace w c s ++ [.containerShutdown] ++ (shutdownTail w.shutdown).1))
  rw [← hm] at t1 t2
  have hend := runThreads_end (mainThread w) (listenerOf w) sched (mainThread w).trace
    (listenerOf w).trace false false []
  have hrun : runProcess w sched = runThreads (mainThread w) (listenerOf w) sched
      (mainThread w).trace (listenerOf w).trace false false [] := rfl
  rw [← hrun] at hend
  refine ⟨?_, ?_, ?_, ?_⟩
  · constructor
    · intro h0
      rcases hend with h | h | h
      · rw [h.2] at h0; exact absurd h0 (by simp)
      · refine ⟨h.1, ?_⟩
        rw [h.2.1] at h0
        exact t1.mp h0
      · obtain ⟨code, hcode, hne⟩ := listenerOf_status_ne_zero w h.2.2
        rw [h.2.1, hcode] at h0
        exact absurd (Option.some.inj h0) hne
    · rintro ⟨hby, hsd⟩
      rcases hend with h | h | h
      · rw [h.1] at hby; exact absurd hby (by simp)
      · rw [h.2.1]; exact t1.mpr hsd
      · rw [h.1] at hby; exact absurd hby (by simp)
  · intro hby
    rcases hend with h | h | h
    · rw [h.1] at hby; exact absurd hby (by simp)
    · intro e he
      refine ⟨by rw [h.2.1]; exact (t2 e he).1, ?_⟩
      apply h.2.2.2
      right
      rw [hm]
      simp only [List.mem_cons, List.mem_append]
      exact Or.inr (Or.inr (t2 e he).2)
    · rw [h.1] at hby; exact absurd hby (by simp)
  · intro hby
    rcases hend with h | h | h
    · rw [h.1] at hby; exact absurd hby (by simp)
    · rw [h.1] at hby; exact absurd hby (by simp)
    · obtain ⟨code, hcode, hne⟩ := listenerOf_status_ne_zero w h.2.2
      exact ⟨code, by rw [h.2.1, hcode], hne⟩
  · intro hnb
    refine ⟨List.replicate ((mainThread w).trace.length + 1) .main, ?_⟩
    apply runThreads_main_only
    rw [hm]
    exact t5 hnb

set_option maxRecDepth 100000 in
/-- Witness for C5: the sample run with `main` scheduled alone; it ends the process
with status 0. -/
theorem C5_process_exit_status_witness :
    sampleWorld.newContainer = .returns sampleContainer ∧
    sampleWorld.buildRouter = .returns none ∧
    sampleWorld.signal = some .interrupt ∧
    ((runProcess sampleWorld mainOnlySchedule).status = some 0 ↔
      (runProcess sampleWorld mainOnlySchedule).endedBy = some .main ∧
        sampleWorld.shutdown = .returns none) ∧
    (runProcess sampleWorld mainOnlySchedule).status = some 0 :=
  ⟨rfl, rfl, rfl,
    (C5_process_exit_status sampleWorld sampleContainer .interrupt mainOnlySchedule
      rfl rfl rfl).1,
    by decide⟩

set_option maxRecDepth 100000 in
/-- Counterexample to C5 as stated: two runs that reach the signal wait, receive
the interrupt and call the container shutdown, which returns nil, and yet exit with
status 1.  In the first TLS is enabled, the certificate cannot be read and the
listener task, scheduled late, ends the process through the fatal policy; in the
second the listener task is told that the server was closed and does the same. -/
theorem C5_counterexample :
    (badCertTLSWorld.newContainer = .returns sampleTLSContainer ∧
      badCertTLSWorld.buildRouter = .returns none ∧
      badCertTLSWorld.signal = some .interrupt ∧
      badCertTLSWorld.shutdown = .returns none ∧
      Event.recvSignal .interrupt ∈ (runProcess badCertTLSWorld listenerLastSchedule).trace ∧
      Event.containerShutdown ∈ (runProcess badCertTLSWorld listenerLastSchedule).trace ∧
      (runProcess badCertTLSWorld listenerLastSchedule).status = some 1 ∧
      ¬ ((runProcess badCertTLSWorld listenerLastSchedule).status = some 0 ↔
        badCertTLSWorld.shutdown = .returns none)) ∧
    (sampleWorld.newContainer = .returns sampleContainer ∧
      sampleWorld.buildRouter = .returns none ∧
      sampleWorld.signal = some .interrupt ∧
      sampleWorld.shutdown = .returns none ∧
      Event.recvSignal .interrupt ∈ (runProcess sampleWorld listenerLastSchedule).trace ∧
      Event.containerShutdown ∈ (runProcess sampleWorld listenerLastSchedule).trace ∧
      (runProcess sampleWorld listenerLastSchedule).status = some 1 ∧
      ¬ ((runProcess sampleWorld listenerLastSchedule).status = some 0 ↔
        sampleWorld.shutdown = .returns none)) := by
  have h1 : (runProcess badCertTLSWorld listenerLastSchedule).status = some 1 := by decide
  have h2 : (runProcess sampleWorld listenerLastSchedule).status = some 1 := by decide
  refine ⟨⟨rfl, rfl, rfl, rfl, by decide, by decide, h1, ?_⟩,
    ⟨rfl, rfl, rfl, rfl, by decide, by decide, h2, ?_⟩⟩
  · rw [h1]
    intro h
    exact absurd (h.mpr rfl) (by decide)
  · rw [h2]
    intro h
    exact absurd (h.mpr rfl) (by decide)

/-! ## The health handler -/

/-- Claim C7: for every request context, `Health.Check` writes a JSON response with
status 200 and the fixed payload `{"status": "ok"}`, the same for every request, and
returns the error of the JSON write; `Health.Init` returns nil for every
container. -/
theorem C7_health_check (h : Health) (ctx : Context) :
    (h.Check ctx).1 = { status := 200, payload := [("status", "ok")] } ∧
    h.Check ctx = ctx.JSON 200 [("status", "ok")] ∧
    (h.Check ctx).2 = ctx.writeErr ∧
    (∀ ctx' : Context, (h.Check ctx').1 = (h.Check ctx).1) ∧
    ∀ c : Container, h.Init c = none :=
  ⟨rfl, rfl, rfl, fun _ => rfl, fun _ => rfl⟩

/-! ## The Service Container of the specification -/

theorem releaseAll_trace (cfg : ContainerConfig) (l : List Subsystem) :
    (releaseAll cfg l).1 = l.map Transition.released := by
  induction l with
  | nil => rfl
  | cons s rest ih =>
    unfold releaseAll
    cases cfg.releaseErr s <;> simp [ih]

theorem releaseAll_errors (cfg : ContainerConfig) (l : List Subsystem)
    (h : ∀ s ∈ l, cfg.releaseErr s = none) : (releaseAll cfg l).2 = [] := by
  induction l with
  | nil => rfl
  | cons s rest ih =>
    unfold releaseAll
    rw [h s (List.mem_cons_self s rest)]
    exact ih (fun t ht => h t (List.mem_cons_of_mem s ht))

theorem constructFrom_ok (cfg : ContainerConfig) (l built : List Subsystem)
    (h : ∀ s ∈ l, cfg.constructErr s = none) :
    constructFrom cfg l built =
      (l.map Transition.constructed, .ok { owned := built.reverse ++ l }) := by
  induction l generalizing built with
  | nil => simp [constructFrom]
  | cons s rest ih =>
    unfold constructFrom
    rw [h s (List.mem_cons_self s rest)]
    simp only
    rw [ih (s :: built) (fun t ht => h t (List.mem_cons_of_mem s ht))]
    simp

theorem constructionOrder_nodup (cfg : ContainerConfig) : (constructionOrder cfg).Nodup := by
  unfold constructionOrder
  cases cfg.taskRunnerEnabled <;> decide

theorem released_injective : Function.Injective Transition.released := by
  intro a b h
  injection h

/-- Claim C8, on the container of the specification: for every valid configuration,
construction succeeds and builds the subsystems in dependency order, and a shutdown
right after it releases them in reverse order, every constructed subsystem exactly
once and nothing else, and reports no error. -/
theorem C8_construct_then_shutdown (cfg : ContainerConfig) (hv : cfg.valid) :
    ∃ c : ServiceContainer,
      (construct cfg).2 = .ok c ∧
      (construct cfg).1 = (constructionOrder cfg).map Transition.constructed ∧
      c.owned = constructionOrder cfg ∧
      (c.shutdown cfg).1 = (constructionOrder cfg).reverse.map Transition.released ∧
      (∀ s, (c.shutdown cfg).1.count (Transition.released s) = if s ∈ c.owned then 1 else 0) ∧
      (∀ s, Transition.constructed s ∉ (c.shutdown cfg).1) ∧
      (c.shutdown cfg).2 = none := by
  have hc : construct cfg =
      ((constructionOrder cfg).map Transition.constructed,
        .ok { owned := constructionOrder cfg }) := by
    unfold construct
    rw [constructFrom_ok cfg _ [] (fun s _ => (hv s).1)]
    simp
  refine ⟨{ owned := constructionOrder cfg }, ?_, ?_, rfl, ?_, ?_, ?_, ?_⟩
  · rw [hc]
  · rw [hc]
  · simp only [ServiceContainer.shutdown, releaseAll_trace]
  · intro s
    simp only [ServiceContainer.shutdown, releaseAll_trace]
    rw [List.count_map_of_injective _ _ released_injective, List.count_reverse]
    split_ifs with hm
    · exact List.count_eq_one_of_mem (constructionOrder_nodup cfg) hm
    · exact List.count_eq_zero_of_not_mem hm
  · intro s
    simp only [ServiceContainer.shutdown, releaseAll_trace]
    simp
  · simp only [ServiceContainer.shutdown]
    rw [releaseAll_errors cfg _ (fun s _ => (hv s).2)]
    rfl

/-- Witness for C8: the sample configuration, with the task runner enabled. -/
theorem C8_construct_then_shutdown_witness :
    sampleContainerConfig.valid ∧
    ∃ c : ServiceContainer, (construct sampleContainerConfig).2 = .ok c ∧
      (c.shutdown sampleContainerConfig).2 = none :=
  ⟨fun _ => ⟨rfl, rfl⟩,
    (C8_construct_then_shutdown sampleContainerConfig (fun _ => ⟨rfl, rfl⟩)).imp
      (fun _ h => ⟨h.1, h.2.2.2.2.2.2⟩)⟩

end Gmfam
